import Mathlib

/-!
# Verification of the product content-optimization pipeline

Shallow embedding of the repository's content optimizer:

* `product-optimizer.server` (sanitization, tag normalization, length
  enforcement, two-tier generation with deterministic fallback), and
* the route module (field-health validation, bulk orchestration, rollback).

JavaScript strings are modelled as `List Char` (`JStr`); JS regular-expression
operations used by the source (`/\s+/`, `/[,\n]/`, `/<[^>]*>/`, `/[^a-z0-9-]/i`,
`/<p|<ul|<ol|<div/i`) are translated into explicit structural scanners so that
every definition evaluates by `decide`/`rfl`.
-/

namespace ShopifyOptimizer

set_option maxHeartbeats 1000000

/-- JavaScript strings, modelled as lists of characters. -/
abbrev JStr := List Char

/-- Convenience coercion from Lean string literals into the model. -/
def js (s : String) : JStr := s.toList

/-- JS whitespace class `\s` restricted to the ASCII whitespace characters
(space, tab, line feed, vertical tab, form feed, carriage return). -/
def isWsp (c : Char) : Bool :=
  c == ' ' || c == '\t' || c == '\n' || c == '\x0b' || c == '\x0c' || c == '\r'

/-- `String.prototype.trimStart`. -/
def jtrimStart (s : JStr) : JStr := s.dropWhile isWsp

/-- `String.prototype.trimEnd`. -/
def jtrimEnd (s : JStr) : JStr := (s.reverse.dropWhile isWsp).reverse

/-- `String.prototype.trim`. -/
def jtrim (s : JStr) : JStr := jtrimEnd (jtrimStart s)

/-- `String.prototype.toLowerCase`, for the ASCII range the source relies on. -/
def jlower (s : JStr) : JStr := s.map Char.toLower

/-- Scanner for `split(/\s+/)`: `inRun` records whether the previous character
belonged to a whitespace run; `acc` accumulates the current piece reversed. -/
def splitWsGo : JStr → JStr → Bool → List JStr
  | [], acc, _ => [acc.reverse]
  | c :: rest, acc, inRun =>
    if isWsp c then
      if inRun then splitWsGo rest acc true
      else acc.reverse :: splitWsGo rest [] true
    else splitWsGo rest (c :: acc) false

/-- `value.split(/\s+/)`: maximal whitespace runs are single separators;
leading/trailing runs contribute empty pieces, as in JS. -/
def jsplitWs (s : JStr) : List JStr := splitWsGo s [] false

/-- Scanner for `split(/[,\n]/)`: each comma or line feed separates. -/
def splitDelimGo : JStr → JStr → List JStr
  | [], acc => [acc.reverse]
  | c :: rest, acc =>
    if c = ',' ∨ c = '\n' then acc.reverse :: splitDelimGo rest []
    else splitDelimGo rest (c :: acc)

/-- `value.split(/[,\n]/)`. -/
def jsplitDelim (s : JStr) : List JStr := splitDelimGo s []

/-- Scanner for `replace(/\s+/g, " ")`. -/
def collapseWsGo : JStr → Bool → JStr
  | [], _ => []
  | c :: rest, inRun =>
    if isWsp c then
      if inRun then collapseWsGo rest true else ' ' :: collapseWsGo rest true
    else c :: collapseWsGo rest false

/-- `value.replace(/\s+/g, " ")`: every whitespace run becomes one space. -/
def collapseWs (s : JStr) : JStr := collapseWsGo s false

/-- Scanner for `replace(/<[^>]*>/g, " ")`.  The second argument is `some buf`
(characters seen since an unclosed `<`, reversed) while a potential tag is
open, `none` otherwise; an unterminated `<...` is emitted literally, exactly
as the regex leaves unmatched text untouched. -/
def stripTagsGo : JStr → Option JStr → JStr
  | [], none => []
  | [], some buf => '<' :: buf.reverse
  | c :: rest, none =>
    if c = '<' then stripTagsGo rest (some [])
    else c :: stripTagsGo rest none
  | c :: rest, some buf =>
    if c = '>' then ' ' :: stripTagsGo rest none
    else stripTagsGo rest (some (c :: buf))

/-- `value.replace(/<[^>]*>/g, " ")`. -/
def stripTagsOnly (s : JStr) : JStr := stripTagsGo s none

/-- Does `pat` occur at the start of `s`? -/
def leadsWith : JStr → JStr → Bool
  | [], _ => true
  | _ :: _, [] => false
  | c :: p, d :: s => c == d && leadsWith p s

/-- Does `pat` occur anywhere inside `s`?  (Substring test.) -/
def occursIn (pat : JStr) : JStr → Bool
  | [] => leadsWith pat []
  | c :: rest => leadsWith pat (c :: rest) || occursIn pat rest

/-- `stripHtml` from the optimizer service: drop tags, collapse whitespace,
trim.  The route's `evaluateDescription` inlines the identical expression. -/
def stripHtml (s : JStr) : JStr := jtrim (collapseWs (stripTagsOnly s))

/-- One global single-character replacement, `value.replace(/c/g, rep)`. -/
def replaceChar (c : Char) (rep : JStr) (s : JStr) : JStr :=
  (s.map (fun x => if x = c then rep else [x])).flatten

/-- `escapeHtml`: the source's five sequential global replaces. -/
def escapeHtml (s : JStr) : JStr :=
  replaceChar '\x27' (js "&#39;")
    (replaceChar '"' (js "&quot;")
      (replaceChar '>' (js "&gt;")
        (replaceChar '<' (js "&lt;")
          (replaceChar '&' (js "&amp;") s))))

/-- `wrapInParagraph`. -/
def wrapInParagraph (value : JStr) : JStr :=
  let trimmed := jtrim value
  if trimmed = [] then [] else js "<p>" ++ escapeHtml trimmed ++ js "</p>"

/-- `capitalize`: first character upper-cased, remainder untouched. -/
def capitalize (value : JStr) : JStr :=
  match value with
  | [] => []
  | c :: rest => Char.toUpper c :: rest

/-- Iteration of `new Set(...)` insertion: keep an element the first time its
value is seen.  `seen` accumulates values already emitted. -/
def dedupGo (seen : List JStr) : List JStr → List JStr
  | [] => []
  | x :: xs => if x ∈ seen then dedupGo seen xs else x :: dedupGo (x :: seen) xs

/-- `Array.from(new Set(l))`: first-occurrence deduplication. -/
def jdedup (l : List JStr) : List JStr := dedupGo [] l

/-- Character class kept by `word.replace(/[^a-z0-9-]/gi, "")`. -/
def isKeywordChar (c : Char) : Bool :=
  ('a' ≤ c && c ≤ 'z') || ('A' ≤ c && c ≤ 'Z') || ('0' ≤ c && c ≤ '9') || c == '-'

/-- `buildKeywordsFromTitle`. -/
def buildKeywordsFromTitle (title : JStr) : List JStr :=
  (((jsplitWs title).map (fun w => jlower (w.filter isKeywordChar))).filter
    (fun w => 2 < w.length)).take 6

/-- The test `/<p|<ul|<ol|<div/i.test(s)`: case-insensitive search for any of
the four block-element markers. -/
def containsBlockMarker (s : JStr) : Bool :=
  let low := s.map Char.toLower
  occursIn (js "<p") low || occursIn (js "<ul") low ||
    occursIn (js "<ol") low || occursIn (js "<div") low

/-- `normalizeDescription`. -/
def normalizeDescription (content : JStr) : JStr :=
  let trimmed := jtrim content
  if trimmed = [] then []
  else if containsBlockMarker trimmed then trimmed
  else wrapInParagraph trimmed

/-- The `unknown`-typed `tags` argument of `normalizeTags`: a JSON array of
strings, a single delimited string, or anything else. -/
inductive TagsInput where
  | arr (l : List JStr)
  | str (s : JStr)
  | other
deriving DecidableEq

/-- Snapshot of a product at optimization time (`ProductSnapshot`). -/
structure ProductSnapshot where
  id : JStr
  title : JStr
  descriptionHtml : Option JStr
  tags : List JStr
  seoTitle : Option JStr
  seoDescription : Option JStr
deriving DecidableEq

/-- `normalizeTags`. -/
def normalizeTags (tags : TagsInput) (snapshot : ProductSnapshot) : List JStr :=
  let normalized : List JStr :=
    match tags with
    | .arr l => (l.map jtrim).filter (· ≠ [])
    | .str u => ((jsplitDelim u).map jtrim).filter (· ≠ [])
    | .other => []
  let normalized :=
    if normalized = [] then buildKeywordsFromTitle snapshot.title else normalized
  ((jdedup (normalized.map jlower)).map capitalize).take 8

/-- The generic default used when both the value and the fallback are empty. -/
def genericDefault : JStr := js "Shop our curated collection today."

/-- The sentence fragment appended by the padding loop (28 characters). -/
def padFragment : JStr := js " Discover more in our store."

/-- One iteration's append:
`text = text + (text.endsWith(".") ? "" : ".") + " Discover more in our store."`. -/
def padStep (text : JStr) : JStr :=
  text ++ (if text.getLast? = some '.' then [] else ['.']) ++ padFragment

/-- `text.slice(0, max - 1).trimEnd() + "…"`, the truncate-on-overflow step. -/
def truncateMax (text : JStr) (mx : Nat) : JStr :=
  jtrimEnd (text.take (mx - 1)) ++ ['…']

/-- The `while (text.length < min)` padding loop of `enforceLength`.  The loop
body grows `text` by at least 28 characters per iteration, so `min` is always
enough fuel; `padGo_fuel` below proves the fuel argument irrelevant beyond the
bound `min - text.length`, certifying that this equals the unbounded loop. -/
def padGo : Nat → JStr → Nat → Nat → JStr
  | 0, text, _, _ => text
  | fuel + 1, text, mn, mx =>
    if text.length < mn then
      let t := padStep text
      if mx < t.length then truncateMax t mx
      else padGo fuel t mn mx
    else text

/-- Number of loop iterations `padGo` executes (for the resource claim). -/
def padGoCount : Nat → JStr → Nat → Nat → Nat
  | 0, _, _, _ => 0
  | fuel + 1, text, mn, mx =>
    if text.length < mn then
      let t := padStep text
      if mx < t.length then 1
      else 1 + padGoCount fuel t mn mx
    else 0

/-- `enforceLength(value, min, max, fallback?)`. -/
def enforceLength (value : JStr) (mn mx : Nat) (fallback : Option JStr) : JStr :=
  let text0 := jtrim value
  let text1 :=
    if text0 = [] then
      match fallback with
      | some f => if f = [] then text0 else jtrim f
      | none => text0
    else text0
  let text2 := if text1 = [] then genericDefault else text1
  let text3 := if mx < text2.length then truncateMax text2 mx else text2
  padGo mn text3 mn mx

/-- Fully-populated generated content (`OptimizedContent`). -/
structure OptimizedContent where
  descriptionHtml : JStr
  tags : List JStr
  seoTitle : JStr
  seoDescription : JStr
deriving DecidableEq

/-- The JSON object parsed from the model's reply, before sanitization.  The
source types it as `OptimizedContent` but passes `tags` to `normalizeTags` as
`unknown` and reads `seoTitle`/`seoDescription` through `value?.trim()`, so
those fields may be absent. -/
structure RawOptimized where
  descriptionHtml : JStr
  tags : TagsInput
  seoTitle : Option JStr
  seoDescription : Option JStr
deriving DecidableEq

/-- `fallbackSeoTitle`. -/
def fallbackSeoTitle (snapshot : ProductSnapshot) : JStr :=
  let keywords := (buildKeywordsFromTitle snapshot.title).take 3
  let suffix :=
    if keywords ≠ [] then js " | " ++ List.intercalate (js " • ") keywords
    else js " | Shop Now"
  snapshot.title ++ suffix

/-- `fallbackSeoDescription`. -/
def fallbackSeoDescription (snapshot : ProductSnapshot) : JStr :=
  let description := stripHtml (snapshot.descriptionHtml.getD [])
  let base :=
    if description ≠ [] then description
    else snapshot.title ++ js " is crafted to help customers feel confident in their purchase."
  base ++ js " Shop now for quick shipping, secure checkout, and helpful customer service."

/-- `sanitizeOptimizedResult`.  `value?.trim() || ""` on a possibly-absent
field is `jtrim (field.getD [])`. -/
def sanitizeOptimizedResult (snapshot : ProductSnapshot) (result : RawOptimized) :
    OptimizedContent :=
  { descriptionHtml := normalizeDescription result.descriptionHtml
    tags := normalizeTags result.tags snapshot
    seoTitle :=
      enforceLength (result.seoTitle.getD []) 35 60 (some (fallbackSeoTitle snapshot))
    seoDescription :=
      enforceLength (result.seoDescription.getD []) 110 160
        (some (fallbackSeoDescription snapshot)) }

/-- The fixed closing sentence of the fallback description. -/
def closingSentence : JStr :=
  js "Enjoy fast shipping, secure checkout, and responsive customer support when you order today."

/-- `generateFallbackContent`. -/
def generateFallbackContent (snapshot : ProductSnapshot) : OptimizedContent :=
  let baseDescription := stripHtml (snapshot.descriptionHtml.getD [])
  let intro :=
    if baseDescription ≠ [] then baseDescription
    else snapshot.title ++ js " delivers quality and value for your store."
  let keyBenefits := (buildKeywordsFromTitle snapshot.title).take 4
  let bulletList :=
    if keyBenefits ≠ [] then
      js "<ul>" ++
        (keyBenefits.map (fun item => js "<li>" ++ escapeHtml item ++ js "</li>")).flatten ++
        js "</ul>"
    else []
  let descriptionHtml :=
    ([wrapInParagraph intro, bulletList, wrapInParagraph closingSentence].filter
      (· ≠ [])).flatten
  let tags :=
    normalizeTags (.arr (if snapshot.tags ≠ [] then snapshot.tags else keyBenefits)) snapshot
  let seoTitle := enforceLength (fallbackSeoTitle snapshot) 35 60 none
  let seoDescription := enforceLength (fallbackSeoDescription snapshot) 110 160 none
  { descriptionHtml, tags, seoTitle, seoDescription }

/-- A chat-completion request as assembled by `generateWithOpenAI`. -/
structure OpenAIRequest where
  authKey : JStr
  model : JStr
  systemPrompt : JStr
  userPrompt : JStr

/-- The provider's reply: HTTP success flag, `payload.error.message`, and
`payload.choices[0].message.content`. -/
structure OpenAIResponse where
  ok : Bool
  errorMessage : Option JStr
  content : Option JStr

/-- Environment of the generator: the `OPENAI_API_KEY` credential, the model
name (`OPENAI_MODEL ?? "gpt-4o-mini"`), the network (`fetch`) as an oracle from
requests to responses, and the platform's `JSON.parse` on the reply text as an
oracle producing a parsed object or `none`.  A reply whose JSON has the wrong
shape for the later field reads is also modelled by `none`, since the resulting
exception is absorbed by the same catch-all that handles parse failures. -/
structure GenEnv where
  apiKey : Option JStr
  modelName : JStr
  fetch : OpenAIRequest → OpenAIResponse
  jsonParse : JStr → Option RawOptimized

/-- `OptimizationError` payloads thrown inside the generation tier. -/
inductive OptError where
  | optimization (msg : JStr)
deriving DecidableEq

/-- The system prompt of the model-backed tier. -/
def systemPromptText : JStr :=
  js "You are an ecommerce SEO copywriter. Improve product descriptions, tags, and SEO metadata while staying accurate to the product."

/-- The user prompt assembled from the snapshot. -/
def buildUserPrompt (snapshot : ProductSnapshot) : JStr :=
  let plainDescription := stripHtml (snapshot.descriptionHtml.getD [])
  js "Product title: " ++ snapshot.title ++
  js "\nCurrent description: " ++
    (if plainDescription ≠ [] then plainDescription else js "(none)") ++
  js "\nCurrent tags: " ++
    (let joined := List.intercalate (js ", ") snapshot.tags
     if joined ≠ [] then joined else js "(none)") ++
  js "\nCurrent SEO title: " ++ (snapshot.seoTitle.getD (js "(none)")) ++
  js "\nCurrent SEO description: " ++ (snapshot.seoDescription.getD (js "(none)")) ++
  js "\n\nReturn JSON with keys descriptionHtml, tags (array of 3-8 concise keyword phrases), seoTitle (35-60 characters) and seoDescription (110-160 characters). Use simple HTML paragraphs and lists for the description. Do not invent features that are not mentioned."

/-- Case-insensitive removal of a leading marker, `replace(/^pat/i, "")`. -/
def dropLeadCI (pat s : JStr) : JStr :=
  if jlower (s.take pat.length) = jlower pat then s.drop pat.length else s

/-- Removal of a trailing marker, `replace(/pat$/, "")`. -/
def dropTrail (pat s : JStr) : JStr :=
  if s.length ≥ pat.length ∧ s.drop (s.length - pat.length) = pat then
    s.take (s.length - pat.length)
  else s

/-- The code-fence stripping of `safeJsonParse` before `JSON.parse`. -/
def stripCodeFences (value : JStr) : JStr :=
  jtrim (dropTrail (js "```") (dropLeadCI (js "```") (dropLeadCI (js "```json") value)))

/-- `generateWithOpenAI`, with an explicit count of network calls performed.
Each failure branch carries the thrown `OptimizationError` message. -/
def generateWithOpenAI (env : GenEnv) (snapshot : ProductSnapshot) :
    Except OptError RawOptimized × Nat :=
  match env.apiKey with
  | none => (.error (.optimization (js "OPENAI_API_KEY is not configured")), 0)
  | some key =>
    let response := env.fetch
      { authKey := key, model := env.modelName,
        systemPrompt := systemPromptText, userPrompt := buildUserPrompt snapshot }
    if response.ok = false then
      (.error (.optimization ((response.errorMessage).getD (js "OpenAI request failed"))), 1)
    else
      match response.content with
      | none => (.error (.optimization (js "OpenAI response did not include content")), 1)
      | some content =>
        match env.jsonParse (stripCodeFences content) with
        | none => (.error (.optimization (js "OpenAI response was not valid JSON")), 1)
        | some parsed => (.ok parsed, 1)

/-- `createOptimizedContent`: the try/catch absorbs every generation failure
and resolves to the deterministic fallback; a successful model reply is
sanitized.  Total — it never raises to its caller. -/
def createOptimizedContent (env : GenEnv) (snapshot : ProductSnapshot) : OptimizedContent :=
  match (generateWithOpenAI env snapshot).1 with
  | .ok aiResult => sanitizeOptimizedResult snapshot aiResult
  | .error _ => generateFallbackContent snapshot

/-- `FieldStatus`. -/
inductive FieldStatus where
  | ok
  | weak
  | missing
deriving DecidableEq

/-- `FieldHealth`. -/
structure FieldHealth where
  status : FieldStatus
  message : JStr
deriving DecidableEq

/-- Decimal rendering of a count for the diagnostic messages. -/
def natToJStr (n : Nat) : JStr := Nat.toDigits 10 n

/-- The word count used by `evaluateDescription`:
`text.split(/\s+/).filter(Boolean).length`. -/
def wordCount (text : JStr) : Nat := ((jsplitWs text).filter (· ≠ [])).length

/-- `evaluateDescription`. -/
def evaluateDescription (descriptionHtml : JStr) : FieldHealth :=
  let text := jtrim (collapseWs (stripTagsOnly descriptionHtml))
  if text = [] then { status := .missing, message := js "No description" }
  else
    let wc := wordCount text
    if wc < 60 then
      { status := .weak,
        message := natToJStr wc ++ js " word" ++ (if wc = 1 then [] else js "s") }
    else { status := .ok, message := natToJStr wc ++ js " words" }

/-- `evaluateTags`. -/
def evaluateTags (tags : List JStr) : FieldHealth :=
  if tags = [] then { status := .missing, message := js "No tags" }
  else if tags.length < 3 then
    { status := .weak,
      message := natToJStr tags.length ++ js " tag" ++
        (if tags.length = 1 then [] else js "s") }
  else { status := .ok, message := natToJStr tags.length ++ js " tags" }

/-- `evaluateSeoTitle`. -/
def evaluateSeoTitle (seoTitle : JStr) : FieldHealth :=
  if seoTitle = [] then { status := .missing, message := js "No SEO title" }
  else if seoTitle.length < 35 ∨ 60 < seoTitle.length then
    { status := .weak, message := natToJStr seoTitle.length ++ js " characters" }
  else { status := .ok, message := natToJStr seoTitle.length ++ js " characters" }

/-- `evaluateSeoDescription`. -/
def evaluateSeoDescription (seoDescription : JStr) : FieldHealth :=
  if seoDescription = [] then { status := .missing, message := js "No meta description" }
  else if seoDescription.length < 110 ∨ 160 < seoDescription.length then
    { status := .weak, message := natToJStr seoDescription.length ++ js " characters" }
  else { status := .ok, message := natToJStr seoDescription.length ++ js " characters" }

/-- A product's mutable content fields in the product store. -/
structure ProductData where
  title : JStr
  descriptionHtml : Option JStr
  tags : List JStr
  seoTitle : Option JStr
  seoDescription : Option JStr
deriving DecidableEq

/-- Serialized tag arrays in the history store. -/
inductive StoredTags where
  | json (tags : List JStr)
  | raw (text : JStr)
deriving DecidableEq

/-- `JSON.parse` of a stored tag column, `none` on parse failure. -/
def parseStoredTags : StoredTags → Option (List JStr)
  | .json tags => some tags
  | .raw _ => none

/-- One `ProductOptimization` row.  Recency is encoded by list position in
`World.history` (head = most recently created), matching
`orderBy: { createdAt: "desc" }` + `findFirst`. -/
structure DBRecord where
  shop : JStr
  productId : JStr
  previousDescriptionHtml : Option JStr
  previousTags : Option StoredTags
  previousSeoTitle : Option JStr
  previousSeoDescription : Option JStr
  optimizedDescriptionHtml : Option JStr
  optimizedTags : Option StoredTags
  optimizedSeoTitle : Option JStr
  optimizedSeoDescription : Option JStr
deriving DecidableEq

/-- The external state touched by the orchestrator. -/
structure World where
  products : List (JStr × ProductData)
  history : List DBRecord
deriving DecidableEq

/-- Failure oracles of the external stores: `fetchErrors pid` is a GraphQL
error on the snapshot query; `updateErrors pid content` is the joined
`userErrors` message of `productUpdate`, `none` meaning the write is accepted. -/
structure StoreEnv where
  fetchErrors : JStr → Option JStr
  updateErrors : JStr → OptimizedContent → Option JStr

/-- Association-list lookup in the product store. -/
def lookupStore (pid : JStr) : List (JStr × ProductData) → Option ProductData
  | [] => none
  | (k, v) :: rest => if k = pid then some v else lookupStore pid rest

/-- The field writes of `productUpdate`: description, tags and SEO are
replaced, the title is untouched. -/
def setContent (oc : OptimizedContent) (p : ProductData) : ProductData :=
  { title := p.title
    descriptionHtml := some oc.descriptionHtml
    tags := oc.tags
    seoTitle := some oc.seoTitle
    seoDescription := some oc.seoDescription }

/-- Overwrite a product's content fields in the store. -/
def updateStore (pid : JStr) (oc : OptimizedContent) :
    List (JStr × ProductData) → List (JStr × ProductData) :=
  List.map (fun kv => if kv.1 = pid then (kv.1, setContent oc kv.2) else kv)

/-- `fetchProductSnapshot`: a GraphQL error propagates; a missing product is
"Product not found"; otherwise the snapshot mirrors the store's fields. -/
def fetchProductSnapshot (env : StoreEnv) (pid : JStr) (w : World) :
    Except JStr ProductSnapshot :=
  match env.fetchErrors pid with
  | some e => .error e
  | none =>
    match lookupStore pid w.products with
    | none => .error (js "Product not found")
    | some p =>
      .ok { id := pid, title := p.title, descriptionHtml := p.descriptionHtml,
            tags := p.tags, seoTitle := p.seoTitle, seoDescription := p.seoDescription }

/-- `applyProductUpdate`: rejected writes throw the joined `userErrors`
message and leave the store unchanged; accepted writes update the product. -/
def applyProductUpdate (env : StoreEnv) (pid : JStr) (oc : OptimizedContent)
    (w : World) : Except JStr World :=
  match env.updateErrors pid oc with
  | some e => .error e
  | none => .ok { w with products := updateStore pid oc w.products }

/-- The history row `optimizeProduct` appends (`prisma.productOptimization.create`). -/
def mkRecord (shop pid : JStr) (snapshot : ProductSnapshot)
    (optimized : OptimizedContent) : DBRecord :=
  { shop := shop
    productId := pid
    previousDescriptionHtml := some (snapshot.descriptionHtml.getD [])
    previousTags := some (.json snapshot.tags)
    previousSeoTitle := some (snapshot.seoTitle.getD [])
    previousSeoDescription := some (snapshot.seoDescription.getD [])
    optimizedDescriptionHtml := some optimized.descriptionHtml
    optimizedTags := some (.json optimized.tags)
    optimizedSeoTitle := some optimized.seoTitle
    optimizedSeoDescription := some optimized.seoDescription }

/-- `optimizeProduct`: fetch → generate → apply → record.  Any store failure
propagates and leaves the world as the failing step left it (fetch and a
rejected write change nothing); history is appended only after a successful
apply. -/
def optimizeProduct (genv : GenEnv) (env : StoreEnv) (shop pid : JStr)
    (w : World) : Except JStr World :=
  match fetchProductSnapshot env pid w with
  | .error e => .error e
  | .ok snapshot =>
    let optimized := createOptimizedContent genv snapshot
    match applyProductUpdate env pid optimized w with
    | .error e => .error e
    | .ok w1 => .ok { w1 with history := mkRecord shop pid snapshot optimized :: w1.history }

/-- The `for … of productIds` loop of the bulk branch: each id is optimized
from the state accumulated so far; a per-item failure increments `failed` and
continues with the unchanged world. -/
def runBulk (genv : GenEnv) (env : StoreEnv) (shop : JStr) :
    List JStr → World → Nat × Nat × World
  | [], w => (0, 0, w)
  | pid :: rest, w =>
    match optimizeProduct genv env shop pid w with
    | .ok w1 =>
      match runBulk genv env shop rest w1 with
      | (o, f, wEnd) => (o + 1, f, wEnd)
    | .error _ =>
      match runBulk genv env shop rest w with
      | (o, f, wEnd) => (o, f + 1, wEnd)

/-- The `productIds` form payload of the bulk intent, after the route's
decoding steps: absent (`formData.get` not a string), not parseable as JSON,
parseable but not an array, or an array of id strings. -/
inductive BulkInput where
  | missing
  | unparseable
  | nonArray
  | ids (l : List JStr)
deriving DecidableEq

/-- The error message thrown for every malformed or empty bulk payload. -/
def noSelectionMsg : JStr := js "No products were selected for bulk optimization"

/-- The `intent === "bulk"` branch of the action: precondition checks happen
before any per-item work; the loop result is aggregated into counts. -/
def bulkAction (genv : GenEnv) (env : StoreEnv) (shop : JStr) (input : BulkInput)
    (w : World) : Except JStr (Nat × Nat × World) :=
  match input with
  | .missing => .error noSelectionMsg
  | .unparseable => .error noSelectionMsg
  | .nonArray => .error noSelectionMsg
  | .ids [] => .error noSelectionMsg
  | .ids (pid :: rest) => .ok (runBulk genv env shop (pid :: rest) w)

/-- The most recent history row for `(shop, productId)`:
`findFirst({ where: { shop, productId }, orderBy: { createdAt: "desc" } })`. -/
def findRecord (shop pid : JStr) : List DBRecord → Option DBRecord
  | [] => none
  | r :: rest => if r.shop = shop ∧ r.productId = pid then some r else findRecord shop pid rest

/-- The error message of a rollback without history. -/
def noHistoryMsg : JStr := js "No saved version is available for this product"

/-- The `OptimizedContent` the rollback branch reconstructs from a record's
"previous" columns: null columns coerce to the empty string, and a stored tag
list that fails to parse is tolerated as the empty list. -/
def previousContentOf (record : DBRecord) : OptimizedContent :=
  { descriptionHtml := record.previousDescriptionHtml.getD []
    tags :=
      match record.previousTags with
      | some stored => (parseStoredTags stored).getD []
      | none => []
    seoTitle := record.previousSeoTitle.getD []
    seoDescription := record.previousSeoDescription.getD [] }

/-- The `intent === "rollback"` branch of the action: requires a product id,
reads the most recent record, reconstructs the previous content verbatim and
writes it through `applyProductUpdate`; no history row is appended. -/
def rollbackAction (env : StoreEnv) (shop pid : JStr) (w : World) : Except JStr World :=
  if pid = [] then .error (js "A product id is required to rollback")
  else
    match findRecord shop pid w.history with
    | none => .error noHistoryMsg
    | some record => applyProductUpdate env pid (previousContentOf record) w

/-- Modelled from the spec: case-insensitive first-occurrence deduplication
that keeps the original casing of the surviving entry. -/
def specDedupCI (seen : List JStr) : List JStr → List JStr
  | [] => []
  | x :: xs =>
    if jlower x ∈ seen then specDedupCI seen xs
    else x :: specDedupCI (jlower x :: seen) xs

/-- Modelled from the spec: trim and drop empties, fall back to title
keywords, deduplicate case-insensitively preserving the first occurrence's
casing, capitalize each, truncate to 8. -/
def specNormalizeTags (tags : TagsInput) (snapshot : ProductSnapshot) : List JStr :=
  let normalized : List JStr :=
    match tags with
    | .arr l => (l.map jtrim).filter (· ≠ [])
    | .str u => ((jsplitDelim u).map jtrim).filter (· ≠ [])
    | .other => []
  let normalized :=
    if normalized = [] then buildKeywordsFromTitle snapshot.title else normalized
  ((specDedupCI [] normalized).map capitalize).take 8

/-- The first character, if any, is not whitespace. -/
def headNotWsp (l : JStr) : Prop := ∀ c, l.head? = some c → isWsp c = false

/-- The last character, if any, is not whitespace. -/
def lastNotWsp (l : JStr) : Prop := ∀ c, l.getLast? = some c → isWsp c = false

/-- A string `trim` leaves unchanged. -/
def trimmedStr (l : JStr) : Prop := headNotWsp l ∧ lastNotWsp l

/-- Executable check for `trimmedStr`, for use on concrete strings. -/
def trimmedCheck (l : JStr) : Bool :=
  (match l.head? with | some c => !isWsp c | none => true) &&
  (match l.getLast? with | some c => !isWsp c | none => true)

/-- The post-branch tag pipeline of `normalizeTags`: dedup of lower-cased
entries, capitalization, truncation to 8. -/
def tagPipeline (N : List JStr) : List JStr :=
  ((jdedup (N.map jlower)).map capitalize).take 8

/-- The cleaned entry list of `normalizeTags`, per input shape. -/
def cleanedOf : TagsInput → List JStr
  | .arr l => (l.map jtrim).filter (· ≠ [])
  | .str u => ((jsplitDelim u).map jtrim).filter (· ≠ [])
  | .other => []

/-- Reading an `OptimizedContent` back as a raw candidate, to feed the
sanitizer its own output: tags as an array, SEO fields present. -/
def asRaw (o : OptimizedContent) : RawOptimized :=
  { descriptionHtml := o.descriptionHtml
    tags := .arr o.tags
    seoTitle := some o.seoTitle
    seoDescription := some o.seoDescription }

/-- The snapshot assembled by `fetchProductSnapshot` from a stored product. -/
def snapOf (pid : JStr) (p : ProductData) : ProductSnapshot :=
  { id := pid, title := p.title, descriptionHtml := p.descriptionHtml,
    tags := p.tags, seoTitle := p.seoTitle, seoDescription := p.seoDescription }

/-- Decidable equality for `Except`, for concrete evaluation in witnesses. -/
instance {ε α : Type} [DecidableEq ε] [DecidableEq α] : DecidableEq (Except ε α) := fun a b =>
  match a, b with
  | .ok x, .ok y =>
    if h : x = y then .isTrue (by rw [h])
    else .isFalse (by intro hh; injection hh; exact h ‹_›)
  | .ok _, .error _ => .isFalse (by intro hh; cases hh)
  | .error _, .ok _ => .isFalse (by intro hh; cases hh)
  | .error e, .error f =>
    if h : e = f then .isTrue (by rw [h])
    else .isFalse (by intro hh; injection hh; exact h ‹_›)

/-- A snapshot whose title yields no keywords (every word ≤ 2 letters) and
whose other fields are empty. -/
def s0 : ProductSnapshot :=
  { id := js "gid://shopify/Product/1", title := js "An A1",
    descriptionHtml := none, tags := [], seoTitle := none, seoDescription := none }

/-- A model reply whose fields are all empty or missing. -/
def raw0 : RawOptimized :=
  { descriptionHtml := [], tags := .arr [], seoTitle := none, seoDescription := none }

/-- A generator environment whose model call succeeds and parses to `raw0`. -/
def genv0 : GenEnv :=
  { apiKey := some (js "sk-test"), modelName := js "gpt-4o-mini",
    fetch := fun _ => { ok := true, errorMessage := none, content := some (js "x") },
    jsonParse := fun _ => some raw0 }

/-- A generator environment with no credential configured. -/
def genvNone : GenEnv :=
  { apiKey := none, modelName := js "gpt-4o-mini",
    fetch := fun _ => { ok := false, errorMessage := none, content := none },
    jsonParse := fun _ => none }

/-- A cleaned description of exactly 60 words. -/
def d60 : JStr := List.intercalate (js " ") (List.replicate 60 (js "word"))

/-- A cleaned description of exactly 59 words. -/
def d59 : JStr := List.intercalate (js " ") (List.replicate 59 (js "word"))

/-- A product with short, "weak" content. -/
def pd0 : ProductData :=
  { title := js "Widget Pro Max 3000", descriptionHtml := some (js "<p>Old words</p>"),
    tags := [js "Old"], seoTitle := some (js "old title"),
    seoDescription := some (js "old desc") }

def shop0 : JStr := js "demo.myshopify.com"

def pidA : JStr := js "gid://shopify/Product/A"

def pidB : JStr := js "gid://shopify/Product/B"

def pidC : JStr := js "gid://shopify/Product/C"

/-- A store environment that accepts every write and never fails a fetch. -/
def envOK : StoreEnv :=
  { fetchErrors := fun _ => none, updateErrors := fun _ _ => none }

/-- A store environment that rejects every write to product B. -/
def envC4 : StoreEnv :=
  { fetchErrors := fun _ => none,
    updateErrors := fun pid _ => if pid = pidB then some (js "rejected") else none }

def wC4 : World :=
  { products := [(pidA, pd0), (pidB, pd0), (pidC, pd0)], history := [] }

/-- A history record for product A with well-formed previous values. -/
def rec5 : DBRecord :=
  { shop := shop0, productId := pidA,
    previousDescriptionHtml := some (js "<p>Old words</p>"),
    previousTags := some (.json [js "Old"]),
    previousSeoTitle := some (js "old title"),
    previousSeoDescription := some (js "old desc"),
    optimizedDescriptionHtml := some (js "<p>New</p>"),
    optimizedTags := some (.json [js "New"]),
    optimizedSeoTitle := some (js "new title"),
    optimizedSeoDescription := some (js "new desc") }

/-- A record whose stored tag list does not parse as JSON. -/
def recRaw : DBRecord :=
  { rec5 with previousTags := some (.raw (js "not-json")) }

def w5 : World := { products := [(pidA, pd0)], history := [rec5] }

def w5empty : World := { products := [(pidA, pd0)], history := [] }

/-- A history record whose previous values are all empty — as captured when a
brand-new product with no content was optimized. -/
def rec10 : DBRecord :=
  { shop := shop0, productId := pidA,
    previousDescriptionHtml := some [],
    previousTags := some (.json []),
    previousSeoTitle := some [],
    previousSeoDescription := some [],
    optimizedDescriptionHtml := some (js "<p>New</p>"),
    optimizedTags := some (.json [js "New"]),
    optimizedSeoTitle := some (js "new title"),
    optimizedSeoDescription := some (js "new desc") }

def w10 : World := { products := [(pidA, pd0)], history := [rec10] }

example : stripHtml (js "<p>Hello   <b>world</b></p>") = js "Hello world" := by decide

example : normalizeTags (.arr [js "Blue", js "blue", js " Red "])
    ⟨js "1", js "T", none, [], none, none⟩ = [js "Blue", js "Red"] := by decide

example : normalizeTags (.arr [js "BLUE"])
    ⟨js "1", js "T", none, [], none, none⟩ = [js "Blue"] := by decide

example : enforceLength (js "ab de") 2 4 none = js "ab…" := by decide

example : (enforceLength (js "short title") 35 60 none).length = 40 := by decide

example : buildKeywordsFromTitle (js "An A1") = [] := by decide

example : normalizeDescription (js "  hi & bye ") = js "<p>hi &amp; bye</p>" := by decide

example : normalizeDescription (js "") = js "" := by decide

theorem charToNat_ofNat (n : Nat) (h : n.isValidChar) : (Char.ofNat n).toNat = n := by
  simp [Char.ofNat, h, Char.ofNatAux, Char.toNat, UInt32.toNat, BitVec.toNat_ofNatLt]

theorem char_toNat_inj (a b : Char) : a = b ↔ a.toNat = b.toNat :=
  ⟨fun h => h ▸ rfl, fun h => Char.ext (UInt32.ext h)⟩

theorem isWsp_iff (c : Char) :
    isWsp c = true ↔
      (c.toNat = 32 ∨ c.toNat = 9 ∨ c.toNat = 10 ∨ c.toNat = 11 ∨
        c.toNat = 12 ∨ c.toNat = 13) := by
  have h1 : (' ' : Char).toNat = 32 := rfl
  have h2 : ('\t' : Char).toNat = 9 := rfl
  have h3 : ('\n' : Char).toNat = 10 := rfl
  have h4 : ('\x0b' : Char).toNat = 11 := rfl
  have h5 : ('\x0c' : Char).toNat = 12 := rfl
  have h6 : ('\r' : Char).toNat = 13 := rfl
  simp only [isWsp, Bool.or_eq_true, beq_iff_eq, char_toNat_inj, h1, h2, h3, h4, h5, h6]
  tauto

theorem toLower_def (c : Char) :
    Char.toLower c =
      if c.toNat ≥ 65 ∧ c.toNat ≤ 90 then Char.ofNat (c.toNat + 32) else c := rfl

theorem toUpper_def (c : Char) :
    Char.toUpper c =
      if c.toNat ≥ 97 ∧ c.toNat ≤ 122 then Char.ofNat (c.toNat - 32) else c := rfl

theorem isWsp_toUpper (c : Char) : isWsp (Char.toUpper c) = isWsp c := by
  by_cases h : c.toNat ≥ 97 ∧ c.toNat ≤ 122
  · have hv : (c.toNat - 32).isValidChar := by
      left
      omega
    have ht := charToNat_ofNat (c.toNat - 32) hv
    rw [toUpper_def, if_pos h, Bool.eq_iff_iff, isWsp_iff, isWsp_iff, ht]
    omega
  · rw [toUpper_def, if_neg h]

theorem isWsp_toLower (c : Char) : isWsp (Char.toLower c) = isWsp c := by
  by_cases h : c.toNat ≥ 65 ∧ c.toNat ≤ 90
  · have hv : (c.toNat + 32).isValidChar := by
      left
      omega
    have ht := charToNat_ofNat (c.toNat + 32) hv
    rw [toLower_def, if_pos h, Bool.eq_iff_iff, isWsp_iff, isWsp_iff, ht]
    omega
  · rw [toLower_def, if_neg h]

theorem toLower_toLower (c : Char) : Char.toLower (Char.toLower c) = Char.toLower c := by
  by_cases h : c.toNat ≥ 65 ∧ c.toNat ≤ 90
  · have hv : (c.toNat + 32).isValidChar := by
      left
      omega
    have ht := charToNat_ofNat (c.toNat + 32) hv
    have h1 : Char.toLower c = Char.ofNat (c.toNat + 32) := by
      rw [toLower_def, if_pos h]
    rw [h1, toLower_def, ht, if_neg (by omega)]
  · have h1 : Char.toLower c = c := by
      rw [toLower_def, if_neg h]
    rw [h1, h1]

theorem toLower_toUpper_toLower (c : Char) :
    Char.toLower (Char.toUpper (Char.toLower c)) = Char.toLower c := by
  by_cases h : (Char.toLower c).toNat ≥ 97 ∧ (Char.toLower c).toNat ≤ 122
  · have hv : ((Char.toLower c).toNat - 32).isValidChar := by
      left
      omega
    have ht := charToNat_ofNat ((Char.toLower c).toNat - 32) hv
    rw [toUpper_def, if_pos h, toLower_def, ht, if_pos (by omega)]
    have h2 : (Char.toLower c).toNat - 32 + 32 = (Char.toLower c).toNat := by omega
    rw [h2, Char.ofNat_toNat]
  · rw [toUpper_def, if_neg h, toLower_toLower]

/-- A string is lower-case-fixed once it has been `jlower`ed. -/
theorem jlower_jlower (s : JStr) : jlower (jlower s) = jlower s := by
  simp [jlower, Function.comp_def, toLower_toLower]

theorem jlower_length (s : JStr) : (jlower s).length = s.length := by
  simp [jlower]

/-- Lower-casing after capitalization undoes it on a lower-case-fixed string. -/
theorem jlower_capitalize_of_lower (s : JStr) :
    jlower (capitalize (jlower s)) = jlower s := by
  cases s with
  | nil => rfl
  | cons c rest =>
    simp [jlower, capitalize, toLower_toUpper_toLower, Function.comp_def, toLower_toLower]

theorem jtrimStart_eq_self {l : JStr} (h : headNotWsp l) : jtrimStart l = l := by
  cases l with
  | nil => rfl
  | cons c rest =>
    have hc : isWsp c = false := h c rfl
    simp [jtrimStart, List.dropWhile_cons, hc]

theorem jtrimEnd_eq_self {l : JStr} (h : lastNotWsp l) : jtrimEnd l = l := by
  have h' : headNotWsp l.reverse := by
    intro c hc
    rw [List.head?_reverse] at hc
    exact h c hc
  unfold jtrimEnd
  rw [show l.reverse.dropWhile isWsp = l.reverse from jtrimStart_eq_self h',
    List.reverse_reverse]

theorem jtrim_eq_self {l : JStr} (h : trimmedStr l) : jtrim l = l := by
  unfold jtrim jtrimStart
  rw [show l.dropWhile isWsp = l from jtrimStart_eq_self h.1, jtrimEnd_eq_self h.2]

theorem headNotWsp_dropWhile (l : JStr) : headNotWsp (l.dropWhile isWsp) := by
  induction l with
  | nil => intro c hc; simp at hc
  | cons a rest ih =>
    by_cases ha : isWsp a
    · simpa [List.dropWhile_cons, ha] using ih
    · intro c hc
      rw [List.dropWhile_cons, if_neg ha] at hc
      simp only [List.head?_cons, Option.some.injEq] at hc
      subst hc
      exact Bool.not_eq_true _ ▸ ha

theorem jtrimEnd_front (l : JStr) : ∃ t, l = jtrimEnd l ++ t := by
  refine ⟨(l.reverse.takeWhile isWsp).reverse, ?_⟩
  unfold jtrimEnd
  conv_lhs => rw [← List.reverse_reverse l, ← List.takeWhile_append_dropWhile isWsp l.reverse]
  rw [List.reverse_append]

theorem headNotWsp_jtrimEnd {l : JStr} (h : headNotWsp l) : headNotWsp (jtrimEnd l) := by
  obtain ⟨t, ht⟩ := jtrimEnd_front l
  cases hj : jtrimEnd l with
  | nil => intro c hc; simp at hc
  | cons a rest =>
    intro c hc
    rw [hj] at ht
    have ha : l.head? = some a := by rw [ht]; rfl
    simp only [List.head?_cons, Option.some.injEq] at hc
    exact hc ▸ h a ha

theorem lastNotWsp_jtrimEnd (l : JStr) : lastNotWsp (jtrimEnd l) := by
  intro c hc
  unfold jtrimEnd at hc
  rw [List.getLast?_reverse] at hc
  exact headNotWsp_dropWhile l.reverse c hc

theorem trimmedStr_jtrim (l : JStr) : trimmedStr (jtrim l) :=
  ⟨headNotWsp_jtrimEnd (headNotWsp_dropWhile l), lastNotWsp_jtrimEnd _⟩

theorem jtrim_idem (l : JStr) : jtrim (jtrim l) = jtrim l :=
  jtrim_eq_self (trimmedStr_jtrim l)

theorem length_jtrimEnd_le (l : JStr) : (jtrimEnd l).length ≤ l.length := by
  unfold jtrimEnd
  rw [List.length_reverse]
  calc (l.reverse.dropWhile isWsp).length
      ≤ l.reverse.length := (List.dropWhile_suffix isWsp).sublist.length_le
    _ = l.length := List.length_reverse l

theorem trimmedStr_of_check {l : JStr} (h : trimmedCheck l = true) : trimmedStr l := by
  unfold trimmedCheck at h
  rw [Bool.and_eq_true] at h
  constructor
  · intro c hc
    have h1 := h.1
    rw [hc] at h1
    simpa using h1
  · intro c hc
    have h2 := h.2
    rw [hc] at h2
    simpa using h2

example : trimmedStr (js "abc") := trimmedStr_of_check (by decide)

theorem padFragment_length : padFragment.length = 28 := by decide

theorem padStep_length_ge (text : JStr) : text.length + 28 ≤ (padStep text).length := by
  unfold padStep
  split <;> simp [padFragment_length]

theorem padStep_length_le (text : JStr) : (padStep text).length ≤ text.length + 29 := by
  unfold padStep
  split <;> simp [padFragment_length]

theorem truncateMax_length_le {mx : Nat} (h : 1 ≤ mx) (t : JStr) :
    (truncateMax t mx).length ≤ mx := by
  unfold truncateMax
  rw [List.length_append]
  have h1 : (jtrimEnd (t.take (mx - 1))).length ≤ (t.take (mx - 1)).length :=
    length_jtrimEnd_le _
  have h2 : (t.take (mx - 1)).length ≤ mx - 1 := List.length_take_le _ _
  simp only [List.length_singleton]
  omega

theorem padGo_of_ge {text : JStr} {mn mx : Nat} (fuel : Nat) (h : mn ≤ text.length) :
    padGo fuel text mn mx = text := by
  cases fuel with
  | zero => rfl
  | succ n =>
    simp only [padGo]
    rw [if_neg (by omega)]

/-- The fuel argument is irrelevant once it covers `min - text.length`; the
fueled recursion is the unbounded `while` loop. -/
theorem padGo_fuel {mn mx : Nat} :
    ∀ fuel fuel' (text : JStr), mn - text.length ≤ fuel → fuel ≤ fuel' →
      padGo fuel text mn mx = padGo fuel' text mn mx := by
  intro fuel
  induction fuel with
  | zero =>
    intro fuel' text h _
    have hge : mn ≤ text.length := by omega
    rw [padGo_of_ge 0 hge, padGo_of_ge fuel' hge]
  | succ n ih =>
    intro fuel' text h hle
    cases fuel' with
    | zero => omega
    | succ m =>
      by_cases hlt : text.length < mn
      · have hg := padStep_length_ge text
        simp only [padGo]
        rw [if_pos hlt, if_pos hlt]
        by_cases hover : mx < (padStep text).length
        · rw [if_pos hover, if_pos hover]
        · rw [if_neg hover, if_neg hover]
          exact ih m (padStep text) (by omega) (by omega)
      · rw [padGo_of_ge _ (by omega), padGo_of_ge _ (by omega)]

theorem padGo_bounds_wide {mn mx : Nat} (hgap : mn + 28 ≤ mx) :
    ∀ fuel (text : JStr), mn - text.length ≤ fuel → text.length ≤ mx →
      mn ≤ (padGo fuel text mn mx).length ∧ (padGo fuel text mn mx).length ≤ mx := by
  intro fuel
  induction fuel with
  | zero =>
    intro text h hmx
    simp only [padGo]
    omega
  | succ n ih =>
    intro text h hmx
    by_cases hlt : text.length < mn
    · have hg := padStep_length_ge text
      have hl := padStep_length_le text
      have hnot : ¬mx < (padStep text).length := by omega
      simp only [padGo]
      rw [if_pos hlt, if_neg hnot]
      exact ih (padStep text) (by omega) (by omega)
    · simp only [padGo]
      rw [if_neg hlt]
      omega

theorem getLast?_take_of_le {α : Type} (l : List α) (n : Nat) (h1 : 1 ≤ n)
    (h2 : n ≤ l.length) : (l.take n).getLast? = l[n - 1]? := by
  rw [List.getLast?_eq_getElem?, List.length_take]
  have hmin : n ⊓ l.length = n := by omega
  rw [hmin, List.getElem?_take, if_pos (by omega)]

/-- In the 35/60 instantiation, the overshoot-truncation inside the loop cuts
inside the appended sentence fragment at a letter of "store", so `trimEnd`
removes nothing and the result has exactly 60 characters. -/
theorem truncate_break_35_60 {text : JStr} (hlt : text.length < 35)
    (hover : 60 < (padStep text).length) :
    (truncateMax (padStep text) 60).length = 60 := by
  have hps : padStep text =
      (text ++ (if text.getLast? = some '.' then ([] : JStr) else ['.'])) ++ padFragment := by
    rw [padStep, List.append_assoc]
  have hsep : (if text.getLast? = some '.' then ([] : JStr) else ['.']).length ≤ 1 := by
    split <;> simp
  have hlen : (padStep text).length =
      text.length + (if text.getLast? = some '.' then ([] : JStr) else ['.']).length + 28 := by
    rw [hps]
    simp [padFragment_length]
    omega
  have hk1 : 33 ≤ text.length + (if text.getLast? = some '.' then ([] : JStr) else ['.']).length := by
    omega
  have hg : ((padStep text).take 59).getLast? = (padStep text)[58]? :=
    getLast?_take_of_le _ 59 (by omega) (by omega)
  have hi : (padStep text)[58]? =
      padFragment[58 - (text.length + (if text.getLast? = some '.' then ([] : JStr) else ['.']).length)]? := by
    rw [hps, List.getElem?_append_right (by simp; omega)]
    congr 1
    simp
  have hchar : ∀ c, (padStep text)[58]? = some c → isWsp c = false := by
    intro c hc
    rw [hi] at hc
    have hidx : 58 - (text.length + (if text.getLast? = some '.' then ([] : JStr) else ['.']).length) = 23 ∨
        58 - (text.length + (if text.getLast? = some '.' then ([] : JStr) else ['.']).length) = 24 ∨
        58 - (text.length + (if text.getLast? = some '.' then ([] : JStr) else ['.']).length) = 25 := by
      omega
    rcases hidx with h | h | h <;> rw [h] at hc
    · have h23 : padFragment[23]? = some 't' := by decide
      rw [h23] at hc
      cases hc
      decide
    · have h24 : padFragment[24]? = some 'o' := by decide
      rw [h24] at hc
      cases hc
      decide
    · have h25 : padFragment[25]? = some 'r' := by decide
      rw [h25] at hc
      cases hc
      decide
  have hlast : lastNotWsp ((padStep text).take 59) := by
    intro c hc
    rw [hg] at hc
    exact hchar c hc
  have hlen59 : ((padStep text).take 59).length = 59 := by
    rw [List.length_take]
    omega
  rw [truncateMax, show (60 - 1) = 59 from rfl, jtrimEnd_eq_self hlast,
    List.length_append, hlen59]
  rfl

theorem padGo_bounds_35_60 :
    ∀ fuel (text : JStr), 35 - text.length ≤ fuel → text.length ≤ 60 →
      35 ≤ (padGo fuel text 35 60).length ∧ (padGo fuel text 35 60).length ≤ 60 := by
  intro fuel
  induction fuel with
  | zero =>
    intro text h hmx
    simp only [padGo]
    omega
  | succ n ih =>
    intro text h hmx
    by_cases hlt : text.length < 35
    · have hg := padStep_length_ge text
      by_cases hover : 60 < (padStep text).length
      · simp only [padGo]
        rw [if_pos hlt, if_pos hover, truncate_break_35_60 hlt hover]
        omega
      · simp only [padGo]
        rw [if_pos hlt, if_neg hover]
        exact ih (padStep text) (by omega) (by omega)
    · simp only [padGo]
      rw [if_neg hlt]
      omega

theorem enforceLength_bounds_35_60 (v : JStr) (fb : Option JStr) :
    35 ≤ (enforceLength v 35 60 fb).length ∧ (enforceLength v 35 60 fb).length ≤ 60 := by
  have key : ∀ t2 : JStr,
      35 ≤ (padGo 35 (if 60 < t2.length then truncateMax t2 60 else t2) 35 60).length ∧
        (padGo 35 (if 60 < t2.length then truncateMax t2 60 else t2) 35 60).length ≤ 60 := by
    intro t2
    apply padGo_bounds_35_60 35 _ (Nat.sub_le _ _)
    split
    · exact truncateMax_length_le (by omega) _
    · omega
  simp only [enforceLength]
  exact key _

theorem enforceLength_bounds_110_160 (v : JStr) (fb : Option JStr) :
    110 ≤ (enforceLength v 110 160 fb).length ∧
      (enforceLength v 110 160 fb).length ≤ 160 := by
  have key : ∀ t2 : JStr,
      110 ≤ (padGo 110 (if 160 < t2.length then truncateMax t2 160 else t2) 110 160).length ∧
        (padGo 110 (if 160 < t2.length then truncateMax t2 160 else t2) 110 160).length ≤ 160 := by
    intro t2
    apply padGo_bounds_wide (by omega) 110 _ (Nat.sub_le _ _)
    split
    · exact truncateMax_length_le (by omega) _
    · omega
  simp only [enforceLength]
  exact key _

theorem head?_take_some {α : Type} {t : List α} {n : Nat} {c : α}
    (hc : (t.take n).head? = some c) : t.head? = some c := by
  cases n with
  | zero => simp at hc
  | succ m =>
    cases t with
    | nil => simp at hc
    | cons a rest => simpa using hc

theorem headNotWsp_take {t : JStr} (n : Nat) (h : headNotWsp t) :
    headNotWsp (t.take n) := fun c hc => h c (head?_take_some hc)

theorem headNotWsp_padStep {t : JStr} (h : headNotWsp t) : headNotWsp (padStep t) := by
  cases t with
  | nil =>
    intro c hc
    have hh : (padStep ([] : JStr)).head? = some '.' := by decide
    rw [hh] at hc
    cases hc
    decide
  | cons a rest =>
    intro c hc
    have hh : (padStep (a :: rest)).head? = some a := by
      simp [padStep, List.cons_append, List.head?_cons]
    rw [hh] at hc
    cases hc
    exact h a rfl

theorem lastNotWsp_padStep (t : JStr) : lastNotWsp (padStep t) := by
  intro c hc
  unfold padStep at hc
  rw [List.getLast?_append, List.getLast?_append] at hc
  have hf : padFragment.getLast? = some '.' := by decide
  rw [hf] at hc
  simp only [Option.or] at hc
  cases hc
  decide

theorem trimmedStr_truncateMax {t : JStr} (mx : Nat) (h : headNotWsp t) :
    trimmedStr (truncateMax t mx) := by
  constructor
  · cases hy : jtrimEnd (t.take (mx - 1)) with
    | nil =>
      intro c hc
      rw [truncateMax, hy] at hc
      cases hc
      decide
    | cons a rest =>
      intro c hc
      rw [truncateMax, hy, List.cons_append, List.head?_cons] at hc
      cases hc
      have ha : (jtrimEnd (t.take (mx - 1))).head? = some a := by rw [hy]; rfl
      exact headNotWsp_jtrimEnd (headNotWsp_take _ h) a ha
  · intro c hc
    rw [truncateMax, List.getLast?_append] at hc
    have hl : ([('…' : Char)] : JStr).getLast? = some '…' := rfl
    rw [hl] at hc
    simp only [Option.or] at hc
    cases hc
    decide

theorem trimmedStr_padGo :
    ∀ fuel {t : JStr} {mn mx : Nat}, trimmedStr t → trimmedStr (padGo fuel t mn mx) := by
  intro fuel
  induction fuel with
  | zero => intro t mn mx h; exact h
  | succ n ih =>
    intro t mn mx h
    simp only [padGo]
    split
    · split
      · exact trimmedStr_truncateMax _ (headNotWsp_padStep h.1)
      · exact ih ⟨headNotWsp_padStep h.1, lastNotWsp_padStep t⟩
    · exact h

theorem trimmedStr_nil : trimmedStr ([] : JStr) := by
  constructor <;> intro c hc <;> simp at hc

theorem trimmedStr_genericDefault : trimmedStr genericDefault :=
  trimmedStr_of_check (by decide)

theorem trimmedStr_enforceLength (v : JStr) (mn mx : Nat) (fb : Option JStr) :
    trimmedStr (enforceLength v mn mx fb) := by
  have key : ∀ t2 : JStr, trimmedStr t2 →
      trimmedStr (padGo mn (if mx < t2.length then truncateMax t2 mx else t2) mn mx) := by
    intro t2 h2
    apply trimmedStr_padGo
    split
    · exact trimmedStr_truncateMax _ h2.1
    · exact h2
  have lift2 : ∀ u : JStr, trimmedStr u →
      trimmedStr (if u = [] then genericDefault else u) := by
    intro u hu
    split
    · exact trimmedStr_genericDefault
    · exact hu
  simp only [enforceLength]
  apply key
  apply lift2
  cases fb with
  | none =>
    split
    · exact trimmedStr_jtrim v
    · exact trimmedStr_jtrim v
  | some f =>
    by_cases hv : jtrim v = []
    · rw [if_pos hv]
      show trimmedStr (if f = [] then jtrim v else jtrim f)
      by_cases hf : f = []
      · rw [if_pos hf]
        exact trimmedStr_jtrim v
      · rw [if_neg hf]
        exact trimmedStr_jtrim f
    · rw [if_neg hv]
      exact trimmedStr_jtrim v

/-- Applying `enforceLength` to a trimmed, non-empty string already inside
`[min, max]` returns it unchanged, for any fallback. -/
theorem enforceLength_fixed {o : JStr} (mn mx : Nat) (fb : Option JStr)
    (htr : trimmedStr o) (hne : o ≠ []) (h1 : mn ≤ o.length) (h2 : o.length ≤ mx) :
    enforceLength o mn mx fb = o := by
  simp only [enforceLength]
  rw [jtrim_eq_self htr, if_neg hne, if_neg hne, if_neg (by omega)]
  exact padGo_of_ge _ h1

theorem char_le_toNat (a b : Char) : (a ≤ b) ↔ a.toNat ≤ b.toNat := Iff.rfl

theorem mem_dedupGo {x : JStr} :
    ∀ {seen l : List JStr}, x ∈ dedupGo seen l → x ∈ l ∧ x ∉ seen := by
  intro seen l
  induction l generalizing seen with
  | nil => intro h; simp [dedupGo] at h
  | cons a rest ih =>
    intro h
    rw [dedupGo] at h
    by_cases ha : a ∈ seen
    · rw [if_pos ha] at h
      have := ih h
      exact ⟨List.mem_cons_of_mem _ this.1, this.2⟩
    · rw [if_neg ha] at h
      rcases List.mem_cons.mp h with rfl | h2
      · exact ⟨List.mem_cons_self _ _, ha⟩
      · have := ih h2
        have hns : x ∉ seen := fun hx => this.2 (List.mem_cons_of_mem _ hx)
        exact ⟨List.mem_cons_of_mem _ this.1, hns⟩

theorem dedupGo_sublist : ∀ (seen l : List JStr), List.Sublist (dedupGo seen l) l := by
  intro seen l
  induction l generalizing seen with
  | nil => simp [dedupGo]
  | cons a rest ih =>
    rw [dedupGo]
    by_cases ha : a ∈ seen
    · rw [if_pos ha]
      exact (ih seen).cons _
    · rw [if_neg ha]
      exact (ih (a :: seen)).cons₂ _

theorem nodup_dedupGo : ∀ (seen l : List JStr), (dedupGo seen l).Nodup := by
  intro seen l
  induction l generalizing seen with
  | nil => simp [dedupGo]
  | cons a rest ih =>
    rw [dedupGo]
    by_cases ha : a ∈ seen
    · rw [if_pos ha]
      exact ih seen
    · rw [if_neg ha]
      refine List.nodup_cons.mpr ⟨?_, ih (a :: seen)⟩
      intro hmem
      exact (mem_dedupGo hmem).2 (List.mem_cons_self _ _)

theorem dedupGo_eq_self :
    ∀ {seen l : List JStr}, l.Nodup → (∀ x ∈ l, x ∉ seen) → dedupGo seen l = l := by
  intro seen l
  induction l generalizing seen with
  | nil => intro _ _; rfl
  | cons a rest ih =>
    intro hnd hdis
    rw [dedupGo, if_neg (hdis a (List.mem_cons_self _ _))]
    congr 1
    refine ih (List.nodup_cons.mp hnd).2 ?_
    intro x hx
    intro hmem
    rcases List.mem_cons.mp hmem with rfl | h2
    · exact (List.nodup_cons.mp hnd).1 hx
    · exact hdis x (List.mem_cons_of_mem _ hx) h2

theorem jdedup_sublist (l : List JStr) : List.Sublist (jdedup l) l := dedupGo_sublist [] l

theorem nodup_jdedup (l : List JStr) : (jdedup l).Nodup := nodup_dedupGo [] l

theorem jdedup_eq_self {l : List JStr} (h : l.Nodup) : jdedup l = l :=
  dedupGo_eq_self h (by simp)

theorem mem_jdedup {x : JStr} {l : List JStr} (h : x ∈ jdedup l) : x ∈ l :=
  (mem_dedupGo h).1

/-- A string all of whose characters are non-whitespace is trimmed. -/
theorem trimmedStr_of_allNotWsp {l : JStr} (h : ∀ c ∈ l, isWsp c = false) :
    trimmedStr l := by
  constructor
  · intro c hc
    exact h c (List.mem_of_mem_head? (by rw [hc]; rfl))
  · intro c hc
    exact h c (List.mem_of_mem_getLast? (by rw [hc]; rfl))

theorem isKeywordChar_not_wsp {c : Char} (h : isKeywordChar c = true) :
    isWsp c = false := by
  unfold isKeywordChar at h
  simp only [Bool.or_eq_true, Bool.and_eq_true, decide_eq_true_eq, beq_iff_eq] at h
  have ha : ('a' : Char).toNat = 97 := rfl
  have hz : ('z' : Char).toNat = 122 := rfl
  have hA : ('A' : Char).toNat = 65 := rfl
  have hZ : ('Z' : Char).toNat = 90 := rfl
  have h0 : ('0' : Char).toNat = 48 := rfl
  have h9 : ('9' : Char).toNat = 57 := rfl
  have hyph : ('-' : Char).toNat = 45 := rfl
  rw [Bool.eq_false_iff]
  intro hw
  rw [isWsp_iff] at hw
  rcases h with ((⟨h1, h2⟩ | ⟨h1, h2⟩) | ⟨h1, h2⟩) | h1
  · rw [char_le_toNat, ha] at h1
    rw [char_le_toNat, hz] at h2
    omega
  · rw [char_le_toNat, hA] at h1
    rw [char_le_toNat, hZ] at h2
    omega
  · rw [char_le_toNat, h0] at h1
    rw [char_le_toNat, h9] at h2
    omega
  · rw [char_toNat_inj, hyph] at h1
    omega

/-- Title keywords contain no whitespace and have length greater than 2. -/
theorem keyword_facts {title x : JStr} (h : x ∈ buildKeywordsFromTitle title) :
    (∀ c ∈ x, isWsp c = false) ∧ 2 < x.length := by
  unfold buildKeywordsFromTitle at h
  have h1 := List.mem_of_mem_take h
  rw [List.mem_filter] at h1
  obtain ⟨hmap, hlen⟩ := h1
  rw [List.mem_map] at hmap
  obtain ⟨w, _, rfl⟩ := hmap
  refine ⟨?_, by simpa using hlen⟩
  intro c hc
  rw [jlower, List.mem_map] at hc
  obtain ⟨d, hd, rfl⟩ := hc
  rw [List.mem_filter] at hd
  rw [isWsp_toLower]
  exact isKeywordChar_not_wsp hd.2

/-- Every entry of the pre-dedup normalized list is trimmed and non-empty. -/
theorem cleaned_entry_facts {l : List JStr} {x : JStr}
    (h : x ∈ (l.map jtrim).filter (· ≠ [])) : trimmedStr x ∧ x ≠ [] := by
  rw [List.mem_filter] at h
  obtain ⟨hmem, hne⟩ := h
  rw [List.mem_map] at hmem
  obtain ⟨y, _, rfl⟩ := hmem
  exact ⟨trimmedStr_jtrim y, by simpa using hne⟩

theorem trimmedStr_jlower {x : JStr} (h : trimmedStr x) : trimmedStr (jlower x) := by
  constructor
  · intro c hc
    unfold jlower at hc
    rw [List.head?_map, Option.map_eq_some'] at hc
    obtain ⟨a, ha, rfl⟩ := hc
    rw [isWsp_toLower]
    exact h.1 a ha
  · intro c hc
    unfold jlower at hc
    rw [List.getLast?_map, Option.map_eq_some'] at hc
    obtain ⟨a, ha, rfl⟩ := hc
    rw [isWsp_toLower]
    exact h.2 a ha

theorem trimmedStr_capitalize {x : JStr} (h : trimmedStr x) :
    trimmedStr (capitalize x) := by
  cases x with
  | nil => exact h
  | cons a rest =>
    constructor
    · intro c hc
      rw [capitalize, List.head?_cons] at hc
      cases hc
      rw [isWsp_toUpper]
      exact h.1 a rfl
    · intro c hc
      cases rest with
      | nil =>
        have hcap : capitalize [a] = [Char.toUpper a] := rfl
        rw [hcap, List.getLast?_singleton] at hc
        cases hc
        rw [isWsp_toUpper]
        exact h.1 a rfl
      | cons b more =>
        rw [capitalize, List.getLast?_cons_cons] at hc
        have := h.2 c
        rw [List.getLast?_cons_cons] at this
        exact this hc

theorem normalizeTags_eq (input : TagsInput) (s : ProductSnapshot) :
    normalizeTags input s =
      tagPipeline
        (if cleanedOf input = [] then buildKeywordsFromTitle s.title
          else cleanedOf input) := by
  cases input <;> rfl

theorem jdedup_eq_nil {l : List JStr} (h : jdedup l = []) : l = [] := by
  cases l with
  | nil => rfl
  | cons a rest => simp [jdedup, dedupGo] at h

theorem tagPipeline_nil {N : List JStr} (h : tagPipeline N = []) : N = [] := by
  unfold tagPipeline at h
  rw [List.take_eq_nil_iff] at h
  rcases h with h | h
  · cases h
  · rw [List.map_eq_nil_iff] at h
    have := jdedup_eq_nil h
    rwa [List.map_eq_nil_iff] at this

theorem tagPipeline_lower (N : List JStr) :
    (tagPipeline N).map jlower = (jdedup (N.map jlower)).take 8 := by
  unfold tagPipeline
  rw [show (((jdedup (N.map jlower)).map capitalize).take 8) =
      ((jdedup (N.map jlower)).take 8).map capitalize from (List.map_take _ _ _).symm]
  rw [List.map_map]
  have hmem : ∀ u ∈ (jdedup (N.map jlower)).take 8, (jlower ∘ capitalize) u = id u := by
    intro u hu
    have h1 : u ∈ jdedup (N.map jlower) := List.mem_of_mem_take hu
    have h2 : u ∈ N.map jlower := mem_jdedup h1
    rw [List.mem_map] at h2
    obtain ⟨x, _, rfl⟩ := h2
    simp only [Function.comp_apply, id_eq]
    exact jlower_capitalize_of_lower x
  rw [List.map_congr_left hmem, List.map_id]

theorem tagPipeline_idem (N : List JStr) :
    tagPipeline (tagPipeline N) = tagPipeline N := by
  have hnodup : ((jdedup (N.map jlower)).take 8).Nodup :=
    (List.take_sublist _ _).nodup (nodup_jdedup _)
  have hle : ((jdedup (N.map jlower)).take 8).length ≤ 8 := List.length_take_le _ _
  show ((jdedup ((tagPipeline N).map jlower)).map capitalize).take 8 = tagPipeline N
  rw [tagPipeline_lower, jdedup_eq_self hnodup,
    List.take_of_length_le (by rw [List.length_map]; exact hle)]
  unfold tagPipeline
  exact List.map_take _ _ _

theorem capitalize_ne_nil {y : JStr} (h : y ≠ []) : capitalize y ≠ [] := by
  cases y with
  | nil => exact absurd rfl h
  | cons a rest => simp [capitalize]

theorem jlower_ne_nil {y : JStr} (h : y ≠ []) : jlower y ≠ [] := by
  cases y with
  | nil => exact absurd rfl h
  | cons a rest => simp [jlower]

/-- Every output tag is the capitalized lower-casing of some normalized entry,
and inherits trimmedness and non-emptiness from it. -/
theorem mem_tagPipeline {N : List JStr} {t : JStr} (ht : t ∈ tagPipeline N) :
    ∃ x ∈ N, t = capitalize (jlower x) := by
  unfold tagPipeline at ht
  have h1 := List.mem_of_mem_take ht
  rw [List.mem_map] at h1
  obtain ⟨y, hy, rfl⟩ := h1
  have h2 := mem_jdedup hy
  rw [List.mem_map] at h2
  obtain ⟨x, hx, rfl⟩ := h2
  exact ⟨x, hx, rfl⟩

theorem tagPipeline_entry_facts {N : List JStr}
    (hN : ∀ x ∈ N, trimmedStr x ∧ x ≠ []) {t : JStr} (ht : t ∈ tagPipeline N) :
    trimmedStr t ∧ t ≠ [] := by
  obtain ⟨x, hx, rfl⟩ := mem_tagPipeline ht
  obtain ⟨htr, hne⟩ := hN x hx
  exact ⟨trimmedStr_capitalize (trimmedStr_jlower htr),
    capitalize_ne_nil (jlower_ne_nil hne)⟩

theorem cleaned_facts (input : TagsInput) :
    ∀ x ∈ cleanedOf input, trimmedStr x ∧ x ≠ [] := by
  intro x hx
  cases input with
  | arr l => exact cleaned_entry_facts hx
  | str u => exact cleaned_entry_facts hx
  | other => simp [cleanedOf] at hx

theorem keyword_entry_facts {title : JStr} :
    ∀ x ∈ buildKeywordsFromTitle title, trimmedStr x ∧ x ≠ [] := by
  intro x hx
  obtain ⟨hchars, hlen⟩ := keyword_facts hx
  refine ⟨trimmedStr_of_allNotWsp hchars, ?_⟩
  intro hnil
  rw [hnil] at hlen
  simp at hlen

/-- Entries of the post-branch normalized list are always trimmed, non-empty. -/
theorem branch_entry_facts (input : TagsInput) (s : ProductSnapshot) :
    ∀ x ∈ (if cleanedOf input = [] then buildKeywordsFromTitle s.title
        else cleanedOf input), trimmedStr x ∧ x ≠ [] := by
  split
  · exact keyword_entry_facts
  · exact cleaned_facts input

/-- Normalizing the output of `normalizeTags` again (as an array, with the
same snapshot) is a no-op. -/
theorem normalizeTags_idem (input : TagsInput) (s : ProductSnapshot) :
    normalizeTags (.arr (normalizeTags input s)) s = normalizeTags input s := by
  rw [normalizeTags_eq input s]
  set N := (if cleanedOf input = [] then buildKeywordsFromTitle s.title
    else cleanedOf input) with hN
  have hfacts : ∀ x ∈ N, trimmedStr x ∧ x ≠ [] := branch_entry_facts input s
  have hclean2 : cleanedOf (.arr (tagPipeline N)) = tagPipeline N := by
    show ((tagPipeline N).map jtrim).filter (· ≠ []) = tagPipeline N
    rw [List.map_congr_left (fun t ht => jtrim_eq_self (tagPipeline_entry_facts hfacts ht).1),
      List.map_id']
    rw [List.filter_eq_self]
    intro t ht
    simpa using (tagPipeline_entry_facts hfacts ht).2
  rw [normalizeTags_eq (.arr (tagPipeline N)) s, hclean2]
  by_cases hout : tagPipeline N = []
  · rw [if_pos hout, hout]
    have hNnil : N = [] := tagPipeline_nil hout
    have hkw : buildKeywordsFromTitle s.title = [] := by
      rw [hN] at hNnil
      by_cases hc : cleanedOf input = []
      · rwa [if_pos hc] at hNnil
      · rw [if_neg hc] at hNnil
        exact absurd hNnil hc
    rw [hkw]
    rfl
  · rw [if_neg hout]
    exact tagPipeline_idem N

theorem occursIn_append_right {pat Y : JStr} (h : occursIn pat Y = true) :
    ∀ X : JStr, occursIn pat (X ++ Y) = true := by
  intro X
  induction X with
  | nil => simpa using h
  | cons c rest ih =>
    rw [List.cons_append, occursIn, Bool.or_eq_true]
    exact Or.inr ih

theorem containsBlockMarker_append_right {Y : JStr} (h : containsBlockMarker Y = true)
    (X : JStr) : containsBlockMarker (X ++ Y) = true := by
  unfold containsBlockMarker at h ⊢
  rw [List.map_append]
  rw [Bool.or_eq_true, Bool.or_eq_true, Bool.or_eq_true] at h ⊢
  rcases h with ((h | h) | h) | h
  · exact Or.inl (Or.inl (Or.inl (occursIn_append_right h _)))
  · exact Or.inl (Or.inl (Or.inr (occursIn_append_right h _)))
  · exact Or.inl (Or.inr (occursIn_append_right h _))
  · exact Or.inr (occursIn_append_right h _)

theorem wrap_eq {t : JStr} (h : jtrim t ≠ []) :
    wrapInParagraph t = js "<p>" ++ escapeHtml (jtrim t) ++ js "</p>" := by
  unfold wrapInParagraph
  rw [if_neg h]

theorem containsBlockMarker_wrap (X : JStr) :
    containsBlockMarker (js "<p>" ++ X ++ js "</p>") = true := by
  unfold containsBlockMarker
  rw [Bool.or_eq_true, Bool.or_eq_true, Bool.or_eq_true]
  refine Or.inl (Or.inl (Or.inl ?_))
  have hshape : js "<p>" ++ X ++ js "</p>" =
      '<' :: 'p' :: ('>' :: (X ++ js "</p>")) := rfl
  rw [hshape]
  simp only [List.map_cons]
  rw [show Char.toLower '<' = '<' from rfl, show Char.toLower 'p' = 'p' from rfl]
  rw [occursIn, Bool.or_eq_true]
  refine Or.inl ?_
  rw [show js "<p" = ['<', 'p'] from rfl]
  simp [leadsWith]

theorem trimmedStr_wrap (X : JStr) :
    trimmedStr (js "<p>" ++ X ++ js "</p>") := by
  constructor
  · intro c hc
    have hshape : js "<p>" ++ X ++ js "</p>" =
        '<' :: ('p' :: '>' :: (X ++ js "</p>")) := rfl
    rw [hshape, List.head?_cons] at hc
    cases hc
    decide
  · intro c hc
    rw [List.getLast?_append] at hc
    have hl : (js "</p>").getLast? = some '>' := by decide
    rw [hl] at hc
    simp only [Option.or] at hc
    cases hc
    decide

theorem wrap_ne_nil (X : JStr) : js "<p>" ++ X ++ js "</p>" ≠ [] := by
  have hshape : js "<p>" ++ X ++ js "</p>" =
      '<' :: ('p' :: '>' :: (X ++ js "</p>")) := rfl
  rw [hshape]
  simp

/-- `normalizeDescription` output characterization: empty iff the trimmed
input is empty, otherwise non-empty and containing a block marker. -/
theorem normalizeDescription_cases (d : JStr) :
    (jtrim d = [] ∧ normalizeDescription d = []) ∨
      (normalizeDescription d ≠ [] ∧
        containsBlockMarker (normalizeDescription d) = true) := by
  unfold normalizeDescription
  by_cases ht : jtrim d = []
  · rw [if_pos ht]
    exact Or.inl ⟨ht, rfl⟩
  · rw [if_neg ht]
    by_cases hm : containsBlockMarker (jtrim d)
    · rw [if_pos hm]
      exact Or.inr ⟨ht, hm⟩
    · rw [if_neg hm, wrap_eq (show jtrim (jtrim d) ≠ [] by rwa [jtrim_idem])]
      exact Or.inr ⟨wrap_ne_nil _, containsBlockMarker_wrap _⟩

theorem normalizeDescription_idem (d : JStr) :
    normalizeDescription (normalizeDescription d) = normalizeDescription d := by
  by_cases ht : jtrim d = []
  · rw [show normalizeDescription d = [] by unfold normalizeDescription; rw [if_pos ht]]
    rfl
  · by_cases hm : containsBlockMarker (jtrim d)
    · have hd : normalizeDescription d = jtrim d := by
        unfold normalizeDescription
        rw [if_neg ht, if_pos hm]
      rw [hd]
      unfold normalizeDescription
      rw [jtrim_idem, if_neg ht, if_pos hm]
    · have hd : normalizeDescription d = js "<p>" ++ escapeHtml (jtrim d) ++ js "</p>" := by
        unfold normalizeDescription
        rw [if_neg ht, if_neg hm]
        unfold wrapInParagraph
        rw [jtrim_idem, if_neg ht]
      rw [hd]
      unfold normalizeDescription
      rw [jtrim_eq_self (trimmedStr_wrap _), if_neg (wrap_ne_nil _),
        if_pos (containsBlockMarker_wrap _)]

theorem normalizeTags_le8 (input : TagsInput) (s : ProductSnapshot) :
    (normalizeTags input s).length ≤ 8 := by
  rw [normalizeTags_eq]
  unfold tagPipeline
  exact List.length_take_le _ _

theorem flatten_filter_facts {w1 w2 w3 : JStr} (h3 : w3 ≠ [])
    (hm : containsBlockMarker w3 = true) :
    ([w1, w2, w3].filter (· ≠ [])).flatten ≠ [] ∧
      containsBlockMarker (([w1, w2, w3].filter (· ≠ [])).flatten) = true := by
  have hsplit : [w1, w2, w3].filter (· ≠ []) = [w1, w2].filter (· ≠ []) ++ [w3] := by
    rw [show ([w1, w2, w3] : List JStr) = [w1, w2] ++ [w3] from rfl, List.filter_append]
    congr 1
    simp [h3]
  rw [hsplit, List.flatten_append]
  have hone : ([w3] : List JStr).flatten = w3 := by simp
  rw [hone]
  constructor
  · intro h
    rw [List.append_eq_nil] at h
    exact h3 h.2
  · exact containsBlockMarker_append_right hm _

theorem closing_jtrim_ne_nil : jtrim closingSentence ≠ [] := by decide

theorem closing_wrap_shape :
    wrapInParagraph closingSentence =
      js "<p>" ++ escapeHtml (jtrim closingSentence) ++ js "</p>" :=
  wrap_eq closing_jtrim_ne_nil

/-- The deterministic fallback's `descriptionHtml` is non-empty and contains a
block element; its tags/SEO fields satisfy the respective bounds. -/
theorem generateFallbackContent_facts (s : ProductSnapshot) :
    (generateFallbackContent s).descriptionHtml ≠ [] ∧
      containsBlockMarker (generateFallbackContent s).descriptionHtml = true ∧
      (generateFallbackContent s).tags.length ≤ 8 ∧
      (35 ≤ (generateFallbackContent s).seoTitle.length ∧
        (generateFallbackContent s).seoTitle.length ≤ 60) ∧
      (110 ≤ (generateFallbackContent s).seoDescription.length ∧
        (generateFallbackContent s).seoDescription.length ≤ 160) := by
  have hw3 : wrapInParagraph closingSentence ≠ [] := by
    rw [closing_wrap_shape]
    exact wrap_ne_nil _
  have hw3m : containsBlockMarker (wrapInParagraph closingSentence) = true := by
    rw [closing_wrap_shape]
    exact containsBlockMarker_wrap _
  refine ⟨?_, ?_, ?_, ?_, ?_⟩ <;> simp only [generateFallbackContent]
  · exact (flatten_filter_facts hw3 hw3m).1
  · exact (flatten_filter_facts hw3 hw3m).2
  · exact normalizeTags_le8 _ _
  · exact enforceLength_bounds_35_60 _ _
  · exact enforceLength_bounds_110_160 _ _

/-- Sanitized output satisfies the tag and SEO length bounds; its description
is empty exactly when the raw description is whitespace-only, and otherwise
contains a block element. -/
theorem sanitizeOptimizedResult_facts (s : ProductSnapshot) (r : RawOptimized) :
    (sanitizeOptimizedResult s r).tags.length ≤ 8 ∧
      (35 ≤ (sanitizeOptimizedResult s r).seoTitle.length ∧
        (sanitizeOptimizedResult s r).seoTitle.length ≤ 60) ∧
      (110 ≤ (sanitizeOptimizedResult s r).seoDescription.length ∧
        (sanitizeOptimizedResult s r).seoDescription.length ≤ 160) ∧
      ((jtrim r.descriptionHtml = [] ∧ (sanitizeOptimizedResult s r).descriptionHtml = []) ∨
        ((sanitizeOptimizedResult s r).descriptionHtml ≠ [] ∧
          containsBlockMarker (sanitizeOptimizedResult s r).descriptionHtml = true)) := by
  refine ⟨?_, ?_, ?_, ?_⟩ <;> simp only [sanitizeOptimizedResult]
  · exact normalizeTags_le8 _ _
  · exact enforceLength_bounds_35_60 _ _
  · exact enforceLength_bounds_110_160 _ _
  · exact normalizeDescription_cases _

theorem ne_nil_of_length_ge (n : Nat) {l : JStr} (hn : 1 ≤ n) (h : n ≤ l.length) :
    l ≠ [] := by
  intro hl
  rw [hl] at h
  simp at h
  omega

theorem enforceLength_idem_35_60 (v : JStr) (fb fb' : Option JStr) :
    enforceLength (enforceLength v 35 60 fb) 35 60 fb' = enforceLength v 35 60 fb := by
  obtain ⟨h1, h2⟩ := enforceLength_bounds_35_60 v fb
  exact enforceLength_fixed _ _ _ (trimmedStr_enforceLength _ _ _ _)
    (ne_nil_of_length_ge 35 (by omega) h1) h1 h2

theorem enforceLength_idem_110_160 (v : JStr) (fb fb' : Option JStr) :
    enforceLength (enforceLength v 110 160 fb) 110 160 fb' =
      enforceLength v 110 160 fb := by
  obtain ⟨h1, h2⟩ := enforceLength_bounds_110_160 v fb
  exact enforceLength_fixed _ _ _ (trimmedStr_enforceLength _ _ _ _)
    (ne_nil_of_length_ge 110 (by omega) h1) h1 h2

theorem generateWithOpenAI_noKey {env : GenEnv} (h : env.apiKey = none)
    (s : ProductSnapshot) :
    generateWithOpenAI env s =
      (.error (.optimization (js "OPENAI_API_KEY is not configured")), 0) := by
  unfold generateWithOpenAI
  rw [h]

theorem createOptimizedContent_of_error {env : GenEnv} {s : ProductSnapshot}
    {e : OptError} (h : (generateWithOpenAI env s).1 = .error e) :
    createOptimizedContent env s = generateFallbackContent s := by
  unfold createOptimizedContent
  rw [h]

theorem createOptimizedContent_of_ok {env : GenEnv} {s : ProductSnapshot}
    {r : RawOptimized} (h : (generateWithOpenAI env s).1 = .ok r) :
    createOptimizedContent env s = sanitizeOptimizedResult s r := by
  unfold createOptimizedContent
  rw [h]

theorem updateStore_cons (pid : JStr) (oc : OptimizedContent) (k : JStr)
    (v : ProductData) (rest : List (JStr × ProductData)) :
    updateStore pid oc ((k, v) :: rest) =
      (if k = pid then (k, setContent oc v) else (k, v)) :: updateStore pid oc rest := by
  by_cases hk : k = pid
  · simp [updateStore, hk]
  · simp [updateStore, hk]

theorem lookupStore_cons (pid k : JStr) (v : ProductData)
    (rest : List (JStr × ProductData)) :
    lookupStore pid ((k, v) :: rest) =
      if k = pid then some v else lookupStore pid rest := rfl

theorem lookupStore_updateStore_self (pid : JStr) (oc : OptimizedContent)
    (l : List (JStr × ProductData)) :
    lookupStore pid (updateStore pid oc l) = (lookupStore pid l).map (setContent oc) := by
  induction l with
  | nil => rfl
  | cons kv rest ih =>
    obtain ⟨k, v⟩ := kv
    by_cases hk : k = pid
    · subst hk
      rw [updateStore_cons, if_pos rfl, lookupStore_cons, if_pos rfl,
        lookupStore_cons, if_pos rfl]
      rfl
    · rw [updateStore_cons, if_neg hk, lookupStore_cons, if_neg hk,
        lookupStore_cons, if_neg hk]
      exact ih

theorem lookupStore_updateStore_other {pid pid' : JStr} (h : pid' ≠ pid)
    (oc : OptimizedContent) (l : List (JStr × ProductData)) :
    lookupStore pid' (updateStore pid oc l) = lookupStore pid' l := by
  induction l with
  | nil => rfl
  | cons kv rest ih =>
    obtain ⟨k, v⟩ := kv
    by_cases hk : k = pid
    · have hk' : k ≠ pid' := fun hh => h (hh ▸ hk.symm ▸ hk)
      rw [updateStore_cons, if_pos hk, lookupStore_cons,
        if_neg (hk ▸ fun hh => h hh.symm), lookupStore_cons, if_neg hk']
      exact ih
    · by_cases hk' : k = pid'
      · rw [updateStore_cons, if_neg hk, lookupStore_cons, if_pos hk',
          lookupStore_cons, if_pos hk']
      · rw [updateStore_cons, if_neg hk, lookupStore_cons, if_neg hk',
          lookupStore_cons, if_neg hk']
        exact ih

theorem setContent_idem (oc : OptimizedContent) (v : ProductData) :
    setContent oc (setContent oc v) = setContent oc v := rfl

theorem updateStore_idem (pid : JStr) (oc : OptimizedContent)
    (l : List (JStr × ProductData)) :
    updateStore pid oc (updateStore pid oc l) = updateStore pid oc l := by
  unfold updateStore
  rw [List.map_map]
  apply List.map_congr_left
  intro kv _
  by_cases hk : kv.1 = pid
  · simp [hk, setContent_idem]
  · simp [hk]

theorem fetchProductSnapshot_ok {env : StoreEnv} {pid : JStr} {w : World}
    {p : ProductData} (hf : env.fetchErrors pid = none)
    (hl : lookupStore pid w.products = some p) :
    fetchProductSnapshot env pid w = .ok (snapOf pid p) := by
  unfold fetchProductSnapshot
  rw [hf, hl]
  rfl

theorem applyProductUpdate_ok {env : StoreEnv} {pid : JStr}
    {oc : OptimizedContent} {w : World} (hu : env.updateErrors pid oc = none) :
    applyProductUpdate env pid oc w =
      .ok { w with products := updateStore pid oc w.products } := by
  unfold applyProductUpdate
  rw [hu]

theorem applyProductUpdate_err {env : StoreEnv} {pid : JStr}
    {oc : OptimizedContent} {w : World} {e : JStr}
    (hu : env.updateErrors pid oc = some e) :
    applyProductUpdate env pid oc w = .error e := by
  unfold applyProductUpdate
  rw [hu]

theorem optimizeProduct_ok (shop : JStr) {genv : GenEnv} {env : StoreEnv} {pid : JStr}
    {w : World} {p : ProductData} (hf : env.fetchErrors pid = none)
    (hl : lookupStore pid w.products = some p)
    (hu : env.updateErrors pid (createOptimizedContent genv (snapOf pid p)) = none) :
    optimizeProduct genv env shop pid w =
      .ok { products :=
              updateStore pid (createOptimizedContent genv (snapOf pid p)) w.products,
            history :=
              mkRecord shop pid (snapOf pid p)
                (createOptimizedContent genv (snapOf pid p)) :: w.history } := by
  unfold optimizeProduct
  rw [fetchProductSnapshot_ok hf hl]
  simp only [applyProductUpdate, hu]

theorem optimizeProduct_err_update (shop : JStr) {genv : GenEnv} {env : StoreEnv}
    {pid : JStr} {w : World} {p : ProductData} {e : JStr}
    (hf : env.fetchErrors pid = none)
    (hl : lookupStore pid w.products = some p)
    (hu : env.updateErrors pid (createOptimizedContent genv (snapOf pid p)) = some e) :
    optimizeProduct genv env shop pid w = .error e := by
  unfold optimizeProduct
  rw [fetchProductSnapshot_ok hf hl]
  simp only [applyProductUpdate, hu]

theorem runBulk_counts (genv : GenEnv) (env : StoreEnv) (shop : JStr) :
    ∀ (pids : List JStr) (w : World),
      (runBulk genv env shop pids w).1 + (runBulk genv env shop pids w).2.1 =
        pids.length := by
  intro pids
  induction pids with
  | nil => intro w; rfl
  | cons pid rest ih =>
    intro w
    cases hopt : optimizeProduct genv env shop pid w with
    | ok w1 =>
      rcases hr : runBulk genv env shop rest w1 with ⟨o, f, wEnd⟩
      have := ih w1
      rw [hr] at this
      simp only [runBulk, hopt, hr]
      simp only [List.length_cons]
      simp at this
      omega
    | error e =>
      rcases hr : runBulk genv env shop rest w with ⟨o, f, wEnd⟩
      have := ih w
      rw [hr] at this
      simp only [runBulk, hopt, hr]
      simp only [List.length_cons]
      simp at this
      omega

theorem rollbackAction_noHistory {env : StoreEnv} {shop pid : JStr} {w : World}
    (hp : pid ≠ []) (h : findRecord shop pid w.history = none) :
    rollbackAction env shop pid w = .error noHistoryMsg := by
  unfold rollbackAction
  rw [if_neg hp, h]

theorem rollbackAction_ok {env : StoreEnv} {shop pid : JStr} {w : World}
    {r : DBRecord} (hp : pid ≠ []) (h : findRecord shop pid w.history = some r)
    (hu : env.updateErrors pid (previousContentOf r) = none) :
    rollbackAction env shop pid w =
      .ok { products := updateStore pid (previousContentOf r) w.products,
            history := w.history } := by
  unfold rollbackAction
  rw [if_neg hp, h]
  simp only [applyProductUpdate, hu]

theorem rollbackAction_err {env : StoreEnv} {shop pid : JStr} {w : World}
    {r : DBRecord} {e : JStr} (hp : pid ≠ [])
    (h : findRecord shop pid w.history = some r)
    (hu : env.updateErrors pid (previousContentOf r) = some e) :
    rollbackAction env shop pid w = .error e := by
  unfold rollbackAction
  rw [if_neg hp, h]
  simp only [applyProductUpdate, hu]

/-- Rollback is a fixed point: rolling back again from the restored world
re-applies the same previous content and returns the same world. -/
theorem rollbackAction_repeat {env : StoreEnv} {shop pid : JStr} {w w' : World}
    (h : rollbackAction env shop pid w = .ok w') :
    rollbackAction env shop pid w' = .ok w' := by
  by_cases hp : pid = []
  · unfold rollbackAction at h
    rw [if_pos hp] at h
    simp at h
  · cases hrec : findRecord shop pid w.history with
    | none =>
      rw [rollbackAction_noHistory hp hrec] at h
      simp at h
    | some r =>
      cases hu : env.updateErrors pid (previousContentOf r) with
      | some e =>
        rw [rollbackAction_err hp hrec hu] at h
        simp at h
      | none =>
        rw [rollbackAction_ok hp hrec hu] at h
        injection h with h'
        rw [← h']
        have hrec' : findRecord shop pid
            (World.mk (updateStore pid (previousContentOf r) w.products)
              w.history).history = some r := hrec
        rw [rollbackAction_ok hp hrec' hu]
        simp only [Except.ok.injEq, World.mk.injEq]
        exact ⟨updateStore_idem _ _ _, trivial⟩

theorem enforceLength_of_inrange {v : JStr} {mn mx : Nat} (fb : Option JStr)
    (hne : jtrim v ≠ []) (h1 : mn ≤ (jtrim v).length) (h2 : (jtrim v).length ≤ mx) :
    enforceLength v mn mx fb = jtrim v := by
  simp only [enforceLength]
  rw [if_neg hne, if_neg hne, if_neg (by omega)]
  exact padGo_of_ge _ h1

/-- C1 counterexample: with snapshot `s0` (title without usable keywords, no
tags) and a model reply whose fields are empty, `createOptimizedContent`
returns empty `tags` and an empty `descriptionHtml`, so the claimed bounds
`1 ≤ |tags|` and `descriptionHtml non-empty` fail. -/
theorem createOptimizedContent_bounds_cex :
    (createOptimizedContent genv0 s0).tags = [] ∧
      (createOptimizedContent genv0 s0).descriptionHtml = [] ∧
      ¬(1 ≤ (createOptimizedContent genv0 s0).tags.length ∧
          (createOptimizedContent genv0 s0).descriptionHtml ≠ []) := by decide

/-- C1 (amended): for every snapshot, the content returned by
`createOptimizedContent` — whether the sanitized model reply or the fallback —
satisfies `|tags| ≤ 8` (tags may be empty when neither the candidate tags nor
the title yield a keyword), `35 ≤ |seoTitle| ≤ 60`,
`110 ≤ |seoDescription| ≤ 160`, and its `descriptionHtml` is either empty
(possible only on the model tier, when the model's description is
whitespace-only) or non-empty with a recognized block element; the fallback
tier's `descriptionHtml` is always non-empty with a block element. -/
theorem createOptimizedContent_bounds (env : GenEnv) (s : ProductSnapshot) :
    (createOptimizedContent env s).tags.length ≤ 8 ∧
      (35 ≤ (createOptimizedContent env s).seoTitle.length ∧
        (createOptimizedContent env s).seoTitle.length ≤ 60) ∧
      (110 ≤ (createOptimizedContent env s).seoDescription.length ∧
        (createOptimizedContent env s).seoDescription.length ≤ 160) ∧
      ((createOptimizedContent env s).descriptionHtml = [] ∨
        ((createOptimizedContent env s).descriptionHtml ≠ [] ∧
          containsBlockMarker (createOptimizedContent env s).descriptionHtml = true)) ∧
      ((generateFallbackContent s).descriptionHtml ≠ [] ∧
        containsBlockMarker (generateFallbackContent s).descriptionHtml = true) := by
  cases hg : (generateWithOpenAI env s).1 with
  | ok r =>
    rw [createOptimizedContent_of_ok hg]
    obtain ⟨h1, h2, h3, h4⟩ := sanitizeOptimizedResult_facts s r
    obtain ⟨hfne, hfm, _, _, _⟩ := generateFallbackContent_facts s
    refine ⟨h1, h2, h3, ?_, hfne, hfm⟩
    rcases h4 with ⟨_, he⟩ | ⟨hne, hm⟩
    · exact Or.inl he
    · exact Or.inr ⟨hne, hm⟩
  | error e =>
    rw [createOptimizedContent_of_error hg]
    obtain ⟨hfne, hfm, ht, hseo1, hseo2⟩ := generateFallbackContent_facts s
    exact ⟨ht, hseo1, hseo2, Or.inr ⟨hfne, hfm⟩, hfne, hfm⟩

/-- C2 counterexample: at `min = 2`, `max = 4`, the input `"ab de"` has
trimmed length `max + 1 = 5`, but the result `"ab…"` has 3 characters, not
exactly `max`, because the truncation trims the space before the cut; and an
input `" ab "` whose trimmed length is exactly `min` is returned trimmed, not
unchanged. -/
theorem enforceLength_boundary_cex :
    2 < 4 ∧ (jtrim (js "ab de")).length = 4 + 1 ∧
      (enforceLength (js "ab de") 2 4 none).length ≠ 4 ∧
      (jtrim (js " ab ")).length = 2 ∧
      enforceLength (js " ab ") 2 4 none ≠ js " ab " := by decide

/-- C2 (amended): for `min < max`, a non-empty trimmed input of length exactly
`min` or `max` is returned trimmed (hence unchanged whenever the input carries
no surrounding whitespace); an input of trimmed length `max + 1` is truncated
to `trimEnd(first max-1 characters) + "…"` — at most `max` characters, ending
in the ellipsis — and that truncated string is the result whenever it still
reaches `min`; an empty input uses the supplied fallback, and the generic
default when the fallback is empty or absent. -/
theorem enforceLength_boundary (v f : JStr) (mn mx : Nat) (fb : Option JStr)
    (hlt : mn < mx) :
    (jtrim v ≠ [] → ((jtrim v).length = mn ∨ (jtrim v).length = mx) →
      enforceLength v mn mx fb = jtrim v) ∧
    ((jtrim v).length = mx + 1 →
      (truncateMax (jtrim v) mx).length ≤ mx ∧
        (truncateMax (jtrim v) mx).getLast? = some '…' ∧
        (mn ≤ (truncateMax (jtrim v) mx).length →
          enforceLength v mn mx fb = truncateMax (jtrim v) mx)) ∧
    (f ≠ [] → enforceLength [] mn mx (some f) = enforceLength f mn mx none) ∧
    (enforceLength [] mn mx none = enforceLength genericDefault mn mx none) ∧
    (enforceLength [] mn mx (some []) = enforceLength [] mn mx none) := by
  refine ⟨?_, ?_, ?_, ?_, ?_⟩
  · intro hne hlen
    rcases hlen with h | h
    · exact enforceLength_of_inrange fb hne (by omega) (by omega)
    · exact enforceLength_of_inrange fb hne (by omega) (by omega)
  · intro hlen
    have hne : jtrim v ≠ [] := ne_nil_of_length_ge (mx + 1) (by omega) (by omega)
    refine ⟨truncateMax_length_le (by omega) _, List.getLast?_concat _, ?_⟩
    intro hge
    simp only [enforceLength]
    rw [if_neg hne, if_neg hne, if_pos (by omega)]
    exact padGo_of_ge _ hge
  · intro hf
    simp only [enforceLength]
    rw [show jtrim ([] : JStr) = [] from rfl]
    rw [if_pos rfl, if_neg hf, ite_self]
  · simp only [enforceLength]
    rw [show jtrim ([] : JStr) = [] from rfl,
      jtrim_eq_self trimmedStr_genericDefault]
    rw [if_pos rfl, if_pos rfl,
      if_neg (show genericDefault ≠ [] by decide), if_neg (show genericDefault ≠ [] by decide)]
  · rfl

/-- C2 witness: the amended boundary behaviors at concrete inputs. -/
theorem enforceLength_boundary_witness :
    enforceLength (js " abcd ") 2 4 none = jtrim (js " abcd ") ∧
      enforceLength (js "ab de") 2 4 none = truncateMax (jtrim (js "ab de")) 4 ∧
      enforceLength [] 2 4 (some (js "hello")) = enforceLength (js "hello") 2 4 none := by
  refine ⟨?_, ?_, ?_⟩
  · exact (enforceLength_boundary (js " abcd ") (js "x") 2 4 none (by decide)).1
      (by decide) (Or.inr (by decide))
  · exact ((enforceLength_boundary (js "ab de") (js "x") 2 4 none (by decide)).2.1
      (by decide)).2.2 (by decide)
  · exact (enforceLength_boundary (js "x") (js "hello") 2 4 (some (js "hello"))
      (by decide)).2.2.1 (by decide)

/-- C3: `createOptimizedContent` is total (never raises): it always resolves
to either the sanitized model reply or the deterministic fallback.  With no
credential configured it performs no network call — the result is the
fallback for every network and parse oracle, and the call counter is 0 — and
every model-tier failure is absorbed into the fallback. -/
theorem createOptimizedContent_total (env : GenEnv) (s : ProductSnapshot) :
    (env.apiKey = none →
      generateWithOpenAI env s =
        (.error (.optimization (js "OPENAI_API_KEY is not configured")), 0) ∧
      createOptimizedContent env s = generateFallbackContent s) ∧
    (∀ (mname : JStr) (fetch : OpenAIRequest → OpenAIResponse)
        (jsonParse : JStr → Option RawOptimized),
      createOptimizedContent (GenEnv.mk none mname fetch jsonParse) s =
          generateFallbackContent s ∧
        (generateWithOpenAI (GenEnv.mk none mname fetch jsonParse) s).2 = 0) ∧
    (∀ e, (generateWithOpenAI env s).1 = .error e →
      createOptimizedContent env s = generateFallbackContent s) ∧
    (createOptimizedContent env s = generateFallbackContent s ∨
      ∃ r, (generateWithOpenAI env s).1 = .ok r ∧
        createOptimizedContent env s = sanitizeOptimizedResult s r) := by
  refine ⟨?_, ?_, ?_, ?_⟩
  · intro h
    have hg := generateWithOpenAI_noKey h s
    refine ⟨hg, createOptimizedContent_of_error (by rw [hg])⟩
  · intro mname fetch jsonParse
    have hg := generateWithOpenAI_noKey
      (show (GenEnv.mk none mname fetch jsonParse).apiKey = none from rfl) s
    exact ⟨createOptimizedContent_of_error (by rw [hg]), by rw [hg]⟩
  · intro e he
    exact createOptimizedContent_of_error he
  · cases hg : (generateWithOpenAI env s).1 with
    | ok r => exact Or.inr ⟨r, rfl, createOptimizedContent_of_ok hg⟩
    | error e => exact Or.inl (createOptimizedContent_of_error hg)

/-- C3 witness: with no credential, generation is the deterministic fallback
and no network call happens. -/
theorem createOptimizedContent_total_witness :
    createOptimizedContent genvNone s0 = generateFallbackContent s0 ∧
      (generateWithOpenAI genvNone s0).2 = 0 := by
  have h := createOptimizedContent_total genvNone s0
  refine ⟨(h.1 rfl).2, ?_⟩
  rw [(h.1 rfl).1]

/-- C6 counterexample: on input `["BLUE"]` the spec's rule (first-occurrence
casing preserved, then capitalized) yields `["BLUE"]`, but the source
lower-cases the whole tag before capitalizing and returns `["Blue"]`. -/
theorem normalizeTags_casing_cex :
    specNormalizeTags (.arr [js "BLUE"]) s0 = [js "BLUE"] ∧
      normalizeTags (.arr [js "BLUE"]) s0 = [js "Blue"] ∧
      normalizeTags (.arr [js "BLUE"]) s0 ≠ specNormalizeTags (.arr [js "BLUE"]) s0 := by
  decide

/-- C6 (amended): tag normalization trims and drops empty entries (for an
array or a comma/newline-delimited string), derives tags from the title when
nothing remains, deduplicates case-insensitively keeping the first
occurrence's position, lower-cases each surviving entry entirely and
capitalizes its first character (casing beyond the first character is not
preserved), preserves order, and truncates to at most 8; in particular
`["Blue", "blue", " Red "]` yields `["Blue", "Red"]`. -/
theorem normalizeTags_spec (input : TagsInput) (s : ProductSnapshot) :
    normalizeTags (.arr [js "Blue", js "blue", js " Red "]) s = [js "Blue", js "Red"] ∧
      (normalizeTags input s).length ≤ 8 ∧
      ((normalizeTags input s).map jlower).Nodup ∧
      List.Sublist ((normalizeTags input s).map jlower)
        ((if cleanedOf input = [] then buildKeywordsFromTitle s.title
          else cleanedOf input).map jlower) ∧
      (∀ u, normalizeTags (.str u) s = normalizeTags (.arr (jsplitDelim u)) s) ∧
      (∀ t, t ∈ normalizeTags input s →
        ∃ x ∈ (if cleanedOf input = [] then buildKeywordsFromTitle s.title
            else cleanedOf input), t = capitalize (jlower x)) := by
  refine ⟨rfl, normalizeTags_le8 input s, ?_, ?_, fun u => rfl, ?_⟩
  · rw [normalizeTags_eq, tagPipeline_lower]
    exact (List.take_sublist _ _).nodup (nodup_jdedup _)
  · rw [normalizeTags_eq, tagPipeline_lower]
    exact (List.take_sublist _ _).trans (jdedup_sublist _)
  · intro t ht
    rw [normalizeTags_eq] at ht
    exact mem_tagPipeline ht

/-- C6 witness: the provenance clause and the string-input clause at concrete
inputs. -/
theorem normalizeTags_spec_witness :
    (∃ x ∈ (if cleanedOf (.arr [js "BLUE"]) = [] then buildKeywordsFromTitle s0.title
        else cleanedOf (.arr [js "BLUE"])), js "Blue" = capitalize (jlower x)) ∧
      normalizeTags (.str (js "a,b")) s0 = normalizeTags (.arr (jsplitDelim (js "a,b"))) s0 := by
  refine ⟨(normalizeTags_spec (.arr [js "BLUE"]) s0).2.2.2.2.2 (js "Blue") (by decide),
    (normalizeTags_spec (.arr []) s0).2.2.2.2.1 (js "a,b")⟩

/-- C7: health classification boundaries: 60 cleaned words is `ok` and 59 is
`weak`; an SEO title of exactly 35 or 60 characters is `ok`, 34 or 61 is
`weak`; an SEO description of 110–160 characters is `ok`, a non-empty one
outside the range is `weak`; an empty value is `missing` in all four field
types; tags are `missing` when empty and `weak` when fewer than 3. -/
theorem health_boundaries :
    (∀ d, wordCount (jtrim (collapseWs (stripTagsOnly d))) = 60 →
      (evaluateDescription d).status = .ok) ∧
    (∀ d, wordCount (jtrim (collapseWs (stripTagsOnly d))) = 59 →
      (evaluateDescription d).status = .weak) ∧
    (∀ t : JStr, (t.length = 35 ∨ t.length = 60) → (evaluateSeoTitle t).status = .ok) ∧
    (∀ t : JStr, (t.length = 34 ∨ t.length = 61) → (evaluateSeoTitle t).status = .weak) ∧
    (∀ sd : JStr, 110 ≤ sd.length → sd.length ≤ 160 →
      (evaluateSeoDescription sd).status = .ok) ∧
    (∀ sd : JStr, sd ≠ [] → (sd.length < 110 ∨ 160 < sd.length) →
      (evaluateSeoDescription sd).status = .weak) ∧
    ((evaluateDescription []).status = .missing ∧
      (evaluateTags []).status = .missing ∧
      (evaluateSeoTitle []).status = .missing ∧
      (evaluateSeoDescription []).status = .missing) ∧
    (∀ ts : List JStr, ts ≠ [] → ts.length < 3 → (evaluateTags ts).status = .weak) := by
  refine ⟨?_, ?_, ?_, ?_, ?_, ?_, by decide, ?_⟩
  · intro d h
    by_cases ht : jtrim (collapseWs (stripTagsOnly d)) = []
    · rw [ht] at h
      exact absurd h (by decide)
    · simp only [evaluateDescription]
      rw [if_neg ht, h, if_neg (by omega)]
  · intro d h
    by_cases ht : jtrim (collapseWs (stripTagsOnly d)) = []
    · rw [ht] at h
      exact absurd h (by decide)
    · simp only [evaluateDescription]
      rw [if_neg ht, h, if_pos (by omega)]
  · intro t h
    have hne : t ≠ [] := by
      intro hnil
      rw [hnil] at h
      rcases h with h | h <;> simp at h
    simp only [evaluateSeoTitle]
    rw [if_neg hne, if_neg (by omega)]
  · intro t h
    have hne : t ≠ [] := by
      intro hnil
      rw [hnil] at h
      rcases h with h | h <;> simp at h
    simp only [evaluateSeoTitle]
    rw [if_neg hne, if_pos (by omega)]
  · intro sd h1 h2
    have hne : sd ≠ [] := ne_nil_of_length_ge 110 (by omega) h1
    simp only [evaluateSeoDescription]
    rw [if_neg hne, if_neg (by omega)]
  · intro sd hne h
    simp only [evaluateSeoDescription]
    rw [if_neg hne, if_pos (by omega)]
  · intro ts hne h
    simp only [evaluateTags]
    rw [if_neg hne, if_pos (by omega)]

/-- C7 witness: the boundary classifications at concrete field values. -/
theorem health_boundaries_witness :
    (evaluateDescription d60).status = .ok ∧
      (evaluateDescription d59).status = .weak ∧
      (evaluateSeoTitle (List.replicate 35 'a')).status = .ok ∧
      (evaluateSeoTitle (List.replicate 60 'a')).status = .ok ∧
      (evaluateSeoTitle (List.replicate 34 'a')).status = .weak ∧
      (evaluateSeoTitle (List.replicate 61 'a')).status = .weak ∧
      (evaluateSeoDescription (List.replicate 110 'a')).status = .ok ∧
      (evaluateSeoDescription (List.replicate 161 'a')).status = .weak ∧
      (evaluateTags [js "a", js "b"]).status = .weak := by
  refine ⟨health_boundaries.1 d60 (by decide), health_boundaries.2.1 d59 (by decide),
    health_boundaries.2.2.1 _ (Or.inl (by decide)),
    health_boundaries.2.2.1 _ (Or.inr (by decide)),
    health_boundaries.2.2.2.1 _ (Or.inl (by decide)),
    health_boundaries.2.2.2.1 _ (Or.inr (by decide)),
    health_boundaries.2.2.2.2.1 _ (by decide) (by decide),
    health_boundaries.2.2.2.2.2.1 _ (by decide) (Or.inr (by decide)),
    health_boundaries.2.2.2.2.2.2.2 _ (by decide) (by decide)⟩

/-- C8: sanitization is idempotent — re-sanitizing a sanitized result (fed
back as a raw candidate, with the same snapshot) changes nothing. -/
theorem sanitize_idempotent (s : ProductSnapshot) (r : RawOptimized) :
    sanitizeOptimizedResult s (asRaw (sanitizeOptimizedResult s r)) =
      sanitizeOptimizedResult s r := by
  simp only [sanitizeOptimizedResult, asRaw, Option.getD_some, OptimizedContent.mk.injEq]
  exact ⟨normalizeDescription_idem _, normalizeTags_idem _ _,
    enforceLength_idem_35_60 _ _ _, enforceLength_idem_110_160 _ _ _⟩

theorem padGoCount_zero_of_ge {text : JStr} {mn mx : Nat} (fuel : Nat)
    (h : mn ≤ text.length) : padGoCount fuel text mn mx = 0 := by
  cases fuel with
  | zero => rfl
  | succ n =>
    simp only [padGoCount]
    rw [if_neg (by omega)]

theorem padGoCount_bound :
    ∀ (fuel : Nat) (text : JStr) (mn mx : Nat),
      28 * padGoCount fuel text mn mx ≤ (mn - text.length) + 28 := by
  intro fuel
  induction fuel with
  | zero =>
    intro text mn mx
    simp [padGoCount]
  | succ n ih =>
    intro text mn mx
    by_cases hlt : text.length < mn
    · by_cases hover : mx < (padStep text).length
      · simp only [padGoCount]
        rw [if_pos hlt, if_pos hover]
        omega
      · simp only [padGoCount]
        rw [if_pos hlt, if_neg hover]
        have hg := padStep_length_ge text
        by_cases hge : mn ≤ (padStep text).length
        · rw [padGoCount_zero_of_ge n hge]
          omega
        · have := ih (padStep text) mn mx
          omega
    · rw [padGoCount_zero_of_ge (n + 1) (by omega)]
      simp

/-- C9: the padding loop of `enforceLength` terminates — the fueled recursion
is stable once the fuel covers `min - |text|`, so it computes the unbounded
`while` loop — and runs at most `(min - |text|)/28 + 1` iterations; at the
program's instantiations (35, 60) and (110, 160) that is at most 3 resp. 5
iterations, for every input. -/
theorem padLoop_terminates :
    (∀ (fuel fuel' : Nat) (text : JStr) (mn mx : Nat),
      mn - text.length ≤ fuel → fuel ≤ fuel' →
        padGo fuel text mn mx = padGo fuel' text mn mx) ∧
    (∀ (fuel : Nat) (text : JStr) (mn mx : Nat),
      28 * padGoCount fuel text mn mx ≤ (mn - text.length) + 28) ∧
    (∀ (fuel : Nat) (text : JStr), padGoCount fuel text 35 60 ≤ 3) ∧
    (∀ (fuel : Nat) (text : JStr), padGoCount fuel text 110 160 ≤ 5) := by
  refine ⟨fun fuel fuel' text mn mx h h' => padGo_fuel fuel fuel' text h h',
    padGoCount_bound, ?_, ?_⟩
  · intro fuel text
    have := padGoCount_bound fuel text 35 60
    omega
  · intro fuel text
    have := padGoCount_bound fuel text 110 160
    omega

/-- C9 witness: fuel-stability of the loop at a concrete input. -/
theorem padLoop_terminates_witness :
    padGo 15 (js "hello") 20 80 = padGo 40 (js "hello") 20 80 ∧
      28 * padGoCount 15 (js "hello") 20 80 ≤ (20 - (js "hello").length) + 28 := by
  exact ⟨padLoop_terminates.1 15 40 (js "hello") 20 80 (by decide) (by decide),
    padLoop_terminates.2.1 15 (js "hello") 20 80⟩

/-- C4: the bulk branch fails only on a malformed or empty payload (for every
environment and world — no per-item work happens); a non-empty id list always
produces an aggregate result; optimized and failed counts sum to the input
length; and in the three-product scenario where B's store write is rejected,
the result is `optimized = 2, failed = 1` with history records for A and C
but none for B. -/
theorem bulk_isolation (genv : GenEnv) (env : StoreEnv) (shop : JStr) :
    (∀ w, bulkAction genv env shop .missing w = .error noSelectionMsg) ∧
      (∀ w, bulkAction genv env shop .unparseable w = .error noSelectionMsg) ∧
      (∀ w, bulkAction genv env shop .nonArray w = .error noSelectionMsg) ∧
      (∀ w, bulkAction genv env shop (.ids []) w = .error noSelectionMsg) ∧
      (∀ pid rest w, bulkAction genv env shop (.ids (pid :: rest)) w =
        .ok (runBulk genv env shop (pid :: rest) w)) ∧
      (∀ pids w,
        (runBulk genv env shop pids w).1 + (runBulk genv env shop pids w).2.1 =
          pids.length) ∧
      (∀ (A B C : JStr) (pA pB pC : ProductData) (w : World),
        A ≠ B → B ≠ C → A ≠ C →
        env.fetchErrors A = none → env.fetchErrors B = none →
        env.fetchErrors C = none →
        lookupStore A w.products = some pA → lookupStore B w.products = some pB →
        lookupStore C w.products = some pC →
        (∀ oc, env.updateErrors A oc = none) →
        (∀ oc, (env.updateErrors B oc).isSome = true) →
        (∀ oc, env.updateErrors C oc = none) →
        w.history = [] →
        ∃ w1, bulkAction genv env shop (.ids [A, B, C]) w = .ok (2, 1, w1) ∧
          w1.history.map (fun rec => rec.productId) = [C, A] ∧
          ∀ rec ∈ w1.history, rec.productId ≠ B) := by
  refine ⟨fun w => rfl, fun w => rfl, fun w => rfl, fun w => rfl, fun pid rest w => rfl,
    runBulk_counts genv env shop, ?_⟩
  intro A B C pA pB pC w hAB hBC hAC hfA hfB hfC hlA hlB hlC huA huB huC hhist
  obtain ⟨w1, hA', hw1p, hw1h⟩ :
      ∃ w1, optimizeProduct genv env shop A w = .ok w1 ∧
        w1.products =
          updateStore A (createOptimizedContent genv (snapOf A pA)) w.products ∧
        w1.history =
          mkRecord shop A (snapOf A pA) (createOptimizedContent genv (snapOf A pA)) ::
            w.history :=
    ⟨_, optimizeProduct_ok shop hfA hlA (huA _), rfl, rfl⟩
  have hlB1 : lookupStore B w1.products = some pB := by
    rw [hw1p, lookupStore_updateStore_other (show B ≠ A from fun hh => hAB hh.symm)]
    exact hlB
  obtain ⟨eB, heB⟩ :=
    Option.isSome_iff_exists.mp (huB (createOptimizedContent genv (snapOf B pB)))
  have hB' : optimizeProduct genv env shop B w1 = .error eB :=
    optimizeProduct_err_update shop hfB hlB1 heB
  have hlC1 : lookupStore C w1.products = some pC := by
    rw [hw1p, lookupStore_updateStore_other (show C ≠ A from fun hh => hAC hh.symm)]
    exact hlC
  obtain ⟨w2, hC', hw2p, hw2h⟩ :
      ∃ w2, optimizeProduct genv env shop C w1 = .ok w2 ∧
        w2.products =
          updateStore C (createOptimizedContent genv (snapOf C pC)) w1.products ∧
        w2.history =
          mkRecord shop C (snapOf C pC) (createOptimizedContent genv (snapOf C pC)) ::
            w1.history :=
    ⟨_, optimizeProduct_ok shop hfC hlC1 (huC _), rfl, rfl⟩
  refine ⟨w2, ?_, ?_, ?_⟩
  · have hrun : runBulk genv env shop [A, B, C] w = (2, 1, w2) := by
      simp only [runBulk, hA', hB', hC']
    show Except.ok (runBulk genv env shop [A, B, C] w) = Except.ok ((2, 1, w2)
      : Nat × Nat × World)
    rw [hrun]
  · rw [hw2h, hw1h, hhist]
    simp only [List.map_cons, List.map_nil]
    rfl
  · intro rec hrec
    rw [hw2h, hw1h, hhist] at hrec
    simp only [List.mem_cons, List.not_mem_nil, or_false] at hrec
    rcases hrec with rfl | rfl
    · exact show C ≠ B from fun hh => hBC hh.symm
    · exact show A ≠ B from hAB

/-- C4 witness: the three-product scenario at a concrete store where product
B's write is rejected. -/
theorem bulk_isolation_witness :
    ∃ w1, bulkAction genv0 envC4 shop0 (.ids [pidA, pidB, pidC]) wC4 = .ok (2, 1, w1) ∧
      w1.history.map (fun rec => rec.productId) = [pidC, pidA] ∧
      ∀ rec ∈ w1.history, rec.productId ≠ pidB := by
  apply (bulk_isolation genv0 envC4 shop0).2.2.2.2.2.2 pidA pidB pidC pd0 pd0 pd0 wC4
    (by decide) (by decide) (by decide) rfl rfl rfl (by decide) (by decide) (by decide)
    ?_ ?_ ?_ rfl
  · intro oc
    show (if pidA = pidB then some (js "rejected") else none) = none
    rw [if_neg (by decide)]
  · intro oc
    show (if pidB = pidB then some (js "rejected") else none).isSome = true
    rw [if_pos rfl]
    rfl
  · intro oc
    show (if pidC = pidB then some (js "rejected") else none) = none
    rw [if_neg (by decide)]

/-- C5: rollback fails with the no-history error when no record exists;
otherwise it writes exactly the most recent record's "previous" values (null
columns as empty strings, an unparseable stored tag list as the empty list,
per `previousContentOf`) through the same store write path, does not append a
history record, and therefore a repeated rollback returns the same restored
world. -/
theorem rollback_spec (env : StoreEnv) (shop pid : JStr) (w : World)
    (hp : pid ≠ []) :
    (findRecord shop pid w.history = none →
      rollbackAction env shop pid w = .error noHistoryMsg) ∧
      (∀ r, findRecord shop pid w.history = some r →
        (env.updateErrors pid (previousContentOf r) = none →
          rollbackAction env shop pid w =
            .ok { products := updateStore pid (previousContentOf r) w.products,
                  history := w.history } ∧
          lookupStore pid (updateStore pid (previousContentOf r) w.products) =
            (lookupStore pid w.products).map (setContent (previousContentOf r))) ∧
        (∀ e, env.updateErrors pid (previousContentOf r) = some e →
          rollbackAction env shop pid w = .error e)) ∧
      (∀ w', rollbackAction env shop pid w = .ok w' →
        rollbackAction env shop pid w' = .ok w') :=
  ⟨rollbackAction_noHistory hp,
    fun _ hr =>
      ⟨fun hu => ⟨rollbackAction_ok hp hr hu, lookupStore_updateStore_self _ _ _⟩,
        fun _ hu => rollbackAction_err hp hr hu⟩,
    fun _ h => rollbackAction_repeat h⟩

/-- C5 witness: no-history failure, a successful restore of the previous
values, and tolerance of an unparseable stored tag list, at concrete worlds. -/
theorem rollback_spec_witness :
    rollbackAction envOK shop0 pidA w5empty = .error noHistoryMsg ∧
      rollbackAction envOK shop0 pidA w5 =
        .ok { products := updateStore pidA (previousContentOf rec5) w5.products,
              history := w5.history } ∧
      (previousContentOf recRaw).tags = [] ∧
      (previousContentOf rec5).seoTitle = js "old title" := by
  refine ⟨(rollback_spec envOK shop0 pidA w5empty (by decide)).1 (by decide),
    (((rollback_spec envOK shop0 pidA w5 (by decide)).2.1 rec5 (by decide)).1 rfl).1,
    by decide, by decide⟩

/-- C10: the rollback path writes the record's previous values verbatim —
no sanitizer, no length enforcement — so a record whose previous fields are
empty makes rollback write content violating every generation-path bound:
empty `descriptionHtml`, `|seoTitle| < 35`, `|seoDescription| < 110`. -/
theorem rollback_writes_unsanitized :
    rollbackAction envOK shop0 pidA w10 =
      .ok { products := updateStore pidA (previousContentOf rec10) w10.products,
            history := w10.history } ∧
      lookupStore pidA (updateStore pidA (previousContentOf rec10) w10.products) =
        some { title := pd0.title, descriptionHtml := some [], tags := [],
               seoTitle := some [], seoDescription := some [] } ∧
      (previousContentOf rec10).descriptionHtml = [] ∧
      (previousContentOf rec10).seoTitle.length < 35 ∧
      (previousContentOf rec10).seoDescription.length < 110 := by decide

example : jsplitWs (js " a  bb ") = [js "", js "a", js "bb", js ""] := by decide

example : jsplitDelim (js "a,,b") = [js "a", js "", js "b"] := by decide

example : stripTagsOnly (js "a<b") = js "a<b" := by decide

example : occursIn (js "<p") ((js "x<P>").map Char.toLower) = true := by decide

end ShopifyOptimizer
